import Mathlib

/-!
# Verification of the gpandas tabular data engine

Shallow embedding of the gpandas core (columnar null-aware Series, DataFrame,
hash-join merge engine, group-by aggregation, melt reshaping) together with
proofs settling the frozen claims about it.

Modelling conventions:
* Go `any` cell values are modelled by the closed sum type `GoVal`
  (float64 values are abstracted as rationals: no claim under scrutiny
  depends on floating-point rounding, only on null/zero/error propagation).
* A nullable cell observed through the `Series` interface (`At` / `IsNull`)
  is an `Option GoVal` (`none` = null).
* Go maps are modelled by association lists with distinct keys; a Go map
  lookup is `List.lookup`.
* Fallible Go functions returning `(T, error)` are modelled with
  `Except String T`.
-/

namespace GPandas

/-- Go dynamic values as they occur in the engine: the numeric cases that
the aggregation type switches accept (`float64`, `int`, `int64`) plus
strings and booleans.  float64 is abstracted as `ℚ`. -/
inductive GoVal where
  | vFloat (q : ℚ)
  | vInt (n : ℤ)
  | vInt64 (n : ℤ)
  | vStr (s : String)
  | vBool (b : Bool)
deriving DecidableEq, Repr

/-- A column as observed through the `Series` interface: the sequence of
`At`/`IsNull` observations (`none` = null slot). -/
abbrev Col := List (Option GoVal)

/-- `Series.At` for an engine column: index out of range is an error,
a null slot yields `ok none` (Go returns `(nil, nil)`). -/
def colAt (s : Col) (i : Nat) : Except String (Option GoVal) :=
  if i < s.length then .ok (s.getD i none) else .error "index out of range"

/-- Embedded DataFrame: ordered column names plus a name → column map
(association list standing for the Go `map[string]collection.Series`). -/
structure EDF where
  order : List String
  cols : List (String × Col)
deriving Repr

/-- Go map lookup `df.Columns[c]`. -/
def EDF.col (df : EDF) (c : String) : Option Col :=
  df.cols.lookup c

/-- Column contents with the empty column as default (used after the code
has validated that the column exists). -/
def EDF.colD (df : EDF) (c : String) : Col :=
  (df.col c).getD []

/-- Row count as `Merge` computes it: 0 for no columns or a nil first
column, otherwise the minimum `Len()` over the listed columns
(merge.go lines 104-121). -/
def rowsMin (df : EDF) : Nat :=
  match df.order with
  | [] => 0
  | c :: rest =>
    match df.col c with
    | none => 0
    | some s =>
      rest.foldl
        (fun r c2 =>
          match df.col c2 with
          | some s2 => if s2.length < r then s2.length else r
          | none => r)
        s.length

/-- Modelled from the spec: `DataFrame.Len` is used by groupby.go,
pivot.go and apply.go but its definition is not under src/.  Spec §3 makes
every column share one common `Len()`; we model `Len` as the length of the
first column in `ColumnOrder` (0 when there are no columns), which agrees
with the common row count on well-formed frames. -/
def EDF.Len (df : EDF) : Nat :=
  match df.order with
  | [] => 0
  | c :: _ => (df.colD c).length

/-- Every column listed in `order` exists in the map and has length `n`
(the DataFrame invariant of spec §3). -/
def WellFormed (df : EDF) (n : Nat) : Prop :=
  ∀ c ∈ df.order, ∃ s, df.col c = some s ∧ s.length = n

/-! ## Merge engine (src/dataframe/merge.go, Series-based version) -/

/-- A merge staging row.  The Go `mergeRow` keeps parallel `values`/`nulls`
slices; every slot written by the merge code is either `(v, false)` with
`v` obtained from `At` or `(nil, true)`, so a slot is an `Option GoVal`. -/
abbrev MergeRow := List (Option GoVal)

/-- The right-table index `df2Map` (merge.go lines 124-132): value `v` maps
to the list of row positions `j < rows` whose key cell is non-null and
equals `v`, in increasing order (null keys are excluded). -/
def keyMatches (key : Col) (rows : Nat) (v : GoVal) : List Nat :=
  (List.range rows).filter (fun j => key.getD j none = some v)

/-- One combined output row: all left columns at left row `i`, then all
right columns except the join column at right row `j`.  `At` on an
out-of-range index contributes `nil` with `IsNull` true, which is again
`none`. -/
def combinedRow (df1 df2 : EDF) (onCol : String) (i j : Nat) : MergeRow :=
  df1.order.map (fun c => (df1.colD c).getD i none)
    ++ (df2.order.filter (fun c => c ≠ onCol)).map (fun c => (df2.colD c).getD j none)

/-- `performInnerMerge` (merge.go lines 216-265): probe left rows in order,
skip null keys, fan out over all matching right positions. -/
def performInnerMerge (df1 df2 : EDF) (onCol : String) (leftRows rightRows : Nat) :
    List MergeRow :=
  (List.range leftRows).flatMap (fun i =>
    match (df1.colD onCol).getD i none with
    | none => []
    | some key =>
      (keyMatches (df2.colD onCol) rightRows key).map (fun j => combinedRow df1 df2 onCol i j))

/-- The left-row-kept-once row of the left merge: left values then
`len(df2.ColumnOrder) - 1` null slots (merge.go lines 321-344). -/
def leftUnmatchedRow (df1 df2 : EDF) (_on : String) (i : Nat) : MergeRow :=
  df1.order.map (fun c => (df1.colD c).getD i none)
    ++ List.replicate (df2.order.length - 1) none

/-- `performLeftMerge` (merge.go lines 268-347). -/
def performLeftMerge (df1 df2 : EDF) (onCol : String) (leftRows rightRows : Nat) :
    List MergeRow :=
  (List.range leftRows).flatMap (fun i =>
    let matchList :=
      match (df1.colD onCol).getD i none with
      | none => []
      | some key => keyMatches (df2.colD onCol) rightRows key
    if matchList.length > 0 then
      matchList.map (fun j => combinedRow df1 df2 onCol i j)
    else
      [leftUnmatchedRow df1 df2 onCol i])

/-- The set of non-null left keys (merge.go lines 468-475). -/
def processedKeys (df1 : EDF) (onCol : String) (leftRows : Nat) : List GoVal :=
  (List.range leftRows).filterMap (fun i => (df1.colD onCol).getD i none)

/-- The row appended for an unmatched right row `j` in a full merge
(merge.go lines 501-531): nulls for every left column except the one at
the first position of the join column in the left order, which carries the
right key cell (null key stays null); then the right columns except the
join column. -/
def rightOnlyRow (df1 df2 : EDF) (onCol : String) (j : Nat) : MergeRow :=
  let keyOpt := (df2.colD onCol).getD j none
  let leftKeyIdx := df1.order.indexOf onCol
  (List.range df1.order.length).map (fun idx => if idx = leftKeyIdx then keyOpt else none)
    ++ (df2.order.filter (fun c => c ≠ onCol)).map (fun c => (df2.colD c).getD j none)

/-- Right row `j` is appended by the full merge iff its key is null or is
not among the processed (non-null) left keys (merge.go lines 490-499). -/
def fullUnmatched (df1 df2 : EDF) (onCol : String) (leftRows j : Nat) : Bool :=
  match (df2.colD onCol).getD j none with
  | none => true
  | some k => ! (processedKeys df1 onCol leftRows).contains k

/-- `performFullMerge` (merge.go lines 459-535): the left merge output
followed by one row per unmatched right row. -/
def performFullMerge (df1 df2 : EDF) (onCol : String) (leftRows rightRows : Nat) :
    List MergeRow :=
  performLeftMerge df1 df2 onCol leftRows rightRows
    ++ ((List.range rightRows).filter (fun j => fullUnmatched df1 df2 onCol leftRows j)).map
        (fun j => rightOnlyRow df1 df2 onCol j)

/-- `performRightMerge` (merge.go lines 350-456): symmetric probe of right
rows against an index over the left table. -/
def performRightMerge (df1 df2 : EDF) (onCol : String) (leftRows rightRows : Nat) :
    List MergeRow :=
  let leftKeyIdx := df1.order.indexOf onCol
  (List.range rightRows).flatMap (fun j =>
    let keyOpt := (df2.colD onCol).getD j none
    let matchList :=
      match keyOpt with
      | none => []
      | some key => keyMatches (df1.colD onCol) leftRows key
    if matchList.length > 0 then
      matchList.map (fun i =>
        df1.order.map (fun c => (df1.colD c).getD i none)
          ++ (df2.order.filter (fun c => c ≠ onCol)).map (fun c => (df2.colD c).getD j none))
    else
      [(List.range df1.order.length).map (fun idx => if idx = leftKeyIdx then keyOpt else none)
        ++ (df2.order.filter (fun c => c ≠ onCol)).map (fun c => (df2.colD c).getD j none)])

/-- The row-building part of `Merge` (merge.go lines 90-156): validate the
join column on both sides, compute the row counts, dispatch on the merge
kind.  The returned row list determines the row count of the output
DataFrame (its index and every output column have this length). -/
def mergeResultRows (df1 df2 : EDF) (onCol : String) (how : String) :
    Except String (List MergeRow) :=
  if (df1.col onCol).isNone then .error "column not found in left DataFrame"
  else if (df2.col onCol).isNone then .error "column not found in right DataFrame"
  else
    let leftRows := rowsMin df1
    let rightRows := rowsMin df2
    match how with
    | "inner" => .ok (performInnerMerge df1 df2 onCol leftRows rightRows)
    | "left" => .ok (performLeftMerge df1 df2 onCol leftRows rightRows)
    | "right" => .ok (performRightMerge df1 df2 onCol leftRows rightRows)
    | "full" => .ok (performFullMerge df1 df2 onCol leftRows rightRows)
    | _ => .error "invalid merge type"

/-- Concrete left frame for witnesses: ID = [1, 2, null], Name = [x, y, z]. -/
def wdfA : EDF :=
  ⟨["ID", "Name"],
    [("ID", [some (.vInt 1), some (.vInt 2), none]),
     ("Name", [some (.vStr "x"), some (.vStr "y"), some (.vStr "z")])]⟩

/-- Concrete right frame for witnesses: ID = [1, 1, null], Age = [25, 30, 35]. -/
def wdfB : EDF :=
  ⟨["ID", "Age"],
    [("ID", [some (.vInt 1), some (.vInt 1), none]),
     ("Age", [some (.vInt 25), some (.vInt 30), some (.vInt 35)])]⟩

/-! ## Typed Series storage layer (src/unnamed/part_001, package collection)

The five variants `Float64Series`, `Int64Series`, `StringSeries`,
`BoolSeries`, `AnySeries` have method bodies that are identical up to the
element type, its zero value, and the dynamic type assertion performed by
`Set`/`Append`.  We embed them once, parametrically: `α` is the element
type, `z` the zero value written into null slots, and
`cast : GoVal → Option α` the Go type assertion (`none` = assertion
failed).  Instantiations:
* Float64Series: `α = ℚ`, `z = 0`, `cast = castFloat64`;
* Int64Series: `α = ℤ`, `z = 0`, `cast = castInt64`;
* StringSeries: `α = String`, `z = ""`, `cast = castString`;
* BoolSeries: `α = Bool`, `z = false`, `cast = castBool`;
* AnySeries: `α = Option GoVal`, `z = none` (a null slot stores Go `nil`),
  `cast v = some (some v)` (no assertion). -/

/-- Typed data slice plus parallel null mask (`true` = null). -/
structure SeriesRep (α : Type) where
  data : List α
  mask : List Bool
deriving Repr, DecidableEq

/-- The `v.(float64)` type assertion of Float64Series. -/
def castFloat64 : GoVal → Option ℚ
  | .vFloat q => some q
  | _ => none

/-- The `v.(int64)` type assertion of Int64Series (a Go `int` does not
satisfy it). -/
def castInt64 : GoVal → Option ℤ
  | .vInt64 n => some n
  | _ => none

/-- The `v.(string)` type assertion of StringSeries. -/
def castString : GoVal → Option String
  | .vStr s => some s
  | _ => none

/-- The `v.(bool)` type assertion of BoolSeries. -/
def castBool : GoVal → Option Bool
  | .vBool b => some b
  | _ => none

namespace SeriesRep

variable {α : Type}

/-- `Len()`. -/
def sLen (s : SeriesRep α) : Nat := s.data.length

/-- `At(i)`: out-of-range error, `ok nil` for a null slot, else the value
(part_001 lines 326-336). -/
def sAt (s : SeriesRep α) (i : Int) : Except String (Option α) :=
  if i < 0 ∨ (s.data.length : Int) ≤ i then .error "index out of range"
  else if s.mask.getD i.toNat false then .ok none
  else .ok (s.data[i.toNat]?)

/-- `IsNull(i)`: out-of-range is treated as null (part_001 lines 338-345). -/
def sIsNull (s : SeriesRep α) (i : Int) : Bool :=
  if i < 0 ∨ (s.mask.length : Int) ≤ i then true
  else s.mask.getD i.toNat false

/-- `NullCount()`: number of set mask bits. -/
def sNullCount (s : SeriesRep α) : Nat := s.mask.count true

/-- `Set(i, v)` (part_001 lines 359-377): out-of-range error; `v = nil`
nulls the slot and zeroes the data; a failed type assertion errors without
mutating; else writes the value and clears the mask bit. -/
def sSet (z : α) (cast : GoVal → Option α) (s : SeriesRep α) (i : Int)
    (v : Option GoVal) : Except String (SeriesRep α) :=
  if i < 0 ∨ (s.data.length : Int) ≤ i then .error "index out of range"
  else
    match v with
    | none => .ok ⟨s.data.set i.toNat z, s.mask.set i.toNat true⟩
    | some g =>
      match cast g with
      | none => .error "type mismatch"
      | some w => .ok ⟨s.data.set i.toNat w, s.mask.set i.toNat false⟩

/-- `SetNull(i)` (part_001 lines 379-388). -/
def sSetNull (z : α) (s : SeriesRep α) (i : Int) : Except String (SeriesRep α) :=
  if i < 0 ∨ (s.data.length : Int) ≤ i then .error "index out of range"
  else .ok ⟨s.data.set i.toNat z, s.mask.set i.toNat true⟩

/-- `Append(v)` (part_001 lines 390-405). -/
def sAppend (z : α) (cast : GoVal → Option α) (s : SeriesRep α)
    (v : Option GoVal) : Except String (SeriesRep α) :=
  match v with
  | none => .ok ⟨s.data ++ [z], s.mask ++ [true]⟩
  | some g =>
    match cast g with
    | none => .error "type mismatch"
    | some w => .ok ⟨s.data ++ [w], s.mask ++ [false]⟩

/-- `AppendNull()` (part_001 lines 407-412). -/
def sAppendNull (z : α) (s : SeriesRep α) : SeriesRep α :=
  ⟨s.data ++ [z], s.mask ++ [true]⟩

/-- `Slice(start, end)` (part_001 lines 436-454): bounds check
`start < 0 || end > len(data) || start > end`, then deep copies of
`data[start:end]` and `mask[start:end]`. -/
def sSlice (s : SeriesRep α) (start stop : Int) : Except String (SeriesRep α) :=
  if start < 0 ∨ (s.data.length : Int) < stop ∨ stop < start then
    .error "invalid slice bounds"
  else
    .ok ⟨(s.data.drop start.toNat).take (stop - start).toNat,
      (s.mask.drop start.toNat).take (stop - start).toNat⟩

/-- `NewXSeriesFromData(data, mask)` (part_001 lines 298-314): length
mismatch error when a mask is supplied; a nil mask means all-false. -/
def sFromData (data : List α) (mask : Option (List Bool)) :
    Except String (SeriesRep α) :=
  match mask with
  | some m =>
    if data.length ≠ m.length then .error "data and mask length mismatch"
    else .ok ⟨data, m⟩
  | none => .ok ⟨data, List.replicate data.length false⟩

end SeriesRep

/-- An operation of the Series mutation interface, as in claim C6. -/
inductive SOp where
  | set (i : Int) (v : Option GoVal)
  | setNull (i : Int)
  | append (v : Option GoVal)
  | appendNull
  | slice (start stop : Int)
deriving Repr

/-- Apply one operation; a failed (error-returning) operation leaves the
series unchanged, exactly as the Go methods return an error before any
mutation; a successful `Slice` continues with the sliced copy. -/
def applySOp {α : Type} (z : α) (cast : GoVal → Option α)
    (s : SeriesRep α) : SOp → SeriesRep α
  | .set i v =>
    match SeriesRep.sSet z cast s i v with
    | .ok s2 => s2
    | .error _ => s
  | .setNull i =>
    match SeriesRep.sSetNull z s i with
    | .ok s2 => s2
    | .error _ => s
  | .append v =>
    match SeriesRep.sAppend z cast s v with
    | .ok s2 => s2
    | .error _ => s
  | .appendNull => SeriesRep.sAppendNull z s
  | .slice a b =>
    match SeriesRep.sSlice s a b with
    | .ok s2 => s2
    | .error _ => s

/-- Run a sequence of Series operations. -/
def runSOps {α : Type} (z : α) (cast : GoVal → Option α)
    (s : SeriesRep α) (ops : List SOp) : SeriesRep α :=
  ops.foldl (applySOp z cast) s

/-- `len(data) == len(mask)`. -/
def LenInv {α : Type} (s : SeriesRep α) : Prop :=
  s.data.length = s.mask.length

/-- Every masked (null) slot holds the zero value in the data slice. -/
def NullZero {α : Type} (z : α) (s : SeriesRep α) : Prop :=
  ∀ i < s.mask.length, s.mask.getD i false = true → s.data.getD i z = z

/-! ## Rename (src/unnamed/part_005 lines 98-147) -/

/-- Go `delete(m, k)` on the association-list model of a map. -/
def mapEraseCol (m : List (String × Col)) (k : String) : List (String × Col) :=
  m.filter (fun p => p.1 ≠ k)

/-- Go `m[k] = v` (insert or overwrite). -/
def mapInsertCol (m : List (String × Col)) (k : String) (v : Col) :
    List (String × Col) :=
  mapEraseCol m k ++ [(k, v)]

/-- One iteration of the Rename loop body for entry `(old, new)`:
`if series, ok := df.Columns[old]; ok { delete(df.Columns, old);
df.Columns[new] = series }`. -/
def renameColsStep (m : List (String × Col)) (oc : String × String) :
    List (String × Col) :=
  match m.lookup oc.1 with
  | some s => mapInsertCol (mapEraseCol m oc.1) oc.2 s
  | none => m

/-- The ColumnOrder update of one Rename loop iteration: every position
holding the old name is overwritten with the new name in place. -/
def renameOrderStep (ord : List String) (oc : String × String) : List String :=
  ord.map (fun c => if c = oc.1 then oc.2 else c)

/-- `DataFrame.Rename` (part_005 lines 98-147).  The rename map is
modelled as the list of its entries in Go map iteration order (keys
distinct); theorems quantify over that order.  Returns the frame paired
with the Go error value; both error branches return before any mutation.
Modelled from the spec: the validation uses the generic Set utility
(`keys.Compare(keys.Intersect(dfcols))`, set.go, which is not under
src/); per the spec it is the standard subset test — the rename fails,
naming a missing column, iff some key of the map is absent from
`ColumnOrder` — which is modelled directly with `find?`. -/
def renameDF (df : EDF) (entries : List (String × String)) : EDF × Option String :=
  if entries = [] then (df, some "columns map is empty")
  else
    match entries.find? (fun e => ! df.order.contains e.1) with
    | some e => (df, some ("column not present in DataFrame: " ++ e.1))
    | none =>
      (entries.foldl
        (fun acc oc => ⟨renameOrderStep acc.order oc, renameColsStep acc.cols oc⟩)
        df, none)

/-! ## GroupBy and aggregation (src/dataframe/groupby.go) -/

/-- `fmt.Sprintf("%v", v)` for a non-nil dynamic value.  Strings print as
themselves, integers in decimal, booleans as true/false.  The %g
formatting of float64 is abstracted by the rational printer (no claim
depends on float formatting). -/
def renderVal : GoVal → String
  | .vStr s => s
  | .vInt n => toString n
  | .vInt64 n => toString n
  | .vBool b => if b then "true" else "false"
  | .vFloat q => toString q

/-- `fmt.Sprintf("%v", val)` applied to an `At` result: Go prints a nil
interface as `<nil>`. -/
def renderCell : Option GoVal → String
  | none => "<nil>"
  | some v => renderVal v

/-- The composite group key of row `i`: per-column `%v` renderings joined
with the single-character separator (groupby.go lines 47-56). -/
def rowKey (df : EDF) (bys : List String) (i : Nat) : String :=
  String.intercalate "_" (bys.map (fun c => renderCell ((df.colD c).getD i none)))

/-- The key of row `i` as the code computes it, with `At` errors
propagated (groupby.go lines 48-55). -/
def rowKeyE (df : EDF) (bys : List String) (i : Nat) : Except String String :=
  (bys.mapM (fun c => colAt (df.colD c) i)).map
    (fun vals => String.intercalate "_" (vals.map renderCell))

/-- `groups[key] = append(groups[key], i)` on the association-list model
of the groups map. -/
def insertGroup (gs : List (String × List Nat)) (k : String) (i : Nat) :
    List (String × List Nat) :=
  if (gs.lookup k).isSome then
    gs.map (fun p => if p.1 = k then (p.1, p.2 ++ [i]) else p)
  else gs ++ [(k, [i])]

/-- The groups table over rows `0..n-1` (pure form, used once the key
computation is known not to error). -/
def buildGroups (df : EDF) (bys : List String) (n : Nat) :
    List (String × List Nat) :=
  (List.range n).foldl (fun gs i => insertGroup gs (rowKey df bys i) i) []

/-- `DataFrame.GroupBy(by, axis)` (groupby.go lines 31-66): only axis 0
is supported; all by-columns must exist; then one pass over the rows
builds the composite-key table, propagating `At` errors. -/
def groupByE (df : EDF) (bys : List String) (axis : Int) :
    Except String (List (String × List Nat)) :=
  if axis ≠ 0 then .error "axis not supported"
  else if (bys.find? (fun c => (df.col c).isNone)).isSome then
    .error "column not found"
  else
    (List.range df.Len).foldlM
      (fun gs i => (rowKeyE df bys i).map (fun k => insertGroup gs k i)) []

/-- `getSortedKeys` (groupby.go lines 69-76): the keys of the groups map,
sorted (Go `sort.Strings`; here an insertion sort under the
lexicographic order of `String`). -/
def getSortedKeys (gs : List (String × List Nat)) : List String :=
  (gs.map Prod.fst).insertionSort (fun a b => a ≤ b)

/-- The numeric coercion used by the aggregation type switches:
`float64`, `int` and `int64` coerce, everything else does not. -/
def toNum : GoVal → Option ℚ
  | .vFloat q => some q
  | .vInt n => some (n : ℚ)
  | .vInt64 n => some (n : ℚ)
  | _ => none

/-- The shared loop body of the Mean/Sum/Min/Max closures
(groupby.go lines 188-324): skip a null entry, coerce a non-null entry,
fail with the non-numeric-type error on an entry that does not coerce. -/
def collectStep (acc : Except String (List ℚ)) (x : Option GoVal) :
    Except String (List ℚ) :=
  acc.bind (fun qs =>
    match x with
    | none => .ok qs
    | some v =>
      match toNum v with
      | some q => .ok (qs ++ [q])
      | none => .error "non-numeric type")

/-- See `collectStep`: the loop over the group column. -/
def collectNums (s : Col) : Except String (List ℚ) :=
  s.foldl collectStep (.ok [])

/-- The `Sum` closure (groupby.go lines 224-252): an empty/all-null
group yields the value 0.0, otherwise the sum. -/
def aggSum (s : Col) : Except String (Option ℚ) :=
  (collectNums s).map (fun qs => if qs.length = 0 then some 0 else some qs.sum)

/-- The `Mean` closure (groupby.go lines 188-221): an empty/all-null
group yields `(nil, nil)` — an explicit null. -/
def aggMean (s : Col) : Except String (Option ℚ) :=
  (collectNums s).map
    (fun qs => if qs.length = 0 then none else some (qs.sum / (qs.length : ℚ)))

/-- The `Min` closure (groupby.go lines 255-288). -/
def aggMin (s : Col) : Except String (Option ℚ) :=
  (collectNums s).map
    (fun qs =>
      match qs with
      | [] => none
      | q :: t => some (t.foldl min q))

/-- The `Max` closure (groupby.go lines 291-324). -/
def aggMax (s : Col) : Except String (Option ℚ) :=
  (collectNums s).map
    (fun qs =>
      match qs with
      | [] => none
      | q :: t => some (t.foldl max q))

/-- The per-group column extraction of `aggregate` (groupby.go lines
150-161): a fresh series over the group's row indices; an `At` error on
an index (ignored by the code) together with `IsNull` true lands as a
null, so each slot is the source cell. -/
def extractGroup (df : EDF) (c : String) (indices : List Nat) : Col :=
  indices.map (fun idx => (df.colD c).getD idx none)

/-- The output cell of `aggregate` for one (group, column): a closure
error is locally recovered as `SetNull` (null), a `nil` result is a
null write, a value is stored in the Float64 result column
(groupby.go lines 163-169). -/
def aggCell (df : EDF) (gs : List (String × List Nat)) (c : String)
    (k : String) (f : Col → Except String (Option ℚ)) : Option GoVal :=
  match f (extractGroup df c ((gs.lookup k).getD [])) with
  | .error _ => none
  | .ok none => none
  | .ok (some q) => some (.vFloat q)

/-- The output frame of `aggregate` (groupby.go lines 79-185): group keys
in sorted order; the by-columns first, holding the `%v` rendering of the
group's first row (stored in a String series); then every other column
in original order, each group's cell computed by the reduction closure.
The Go code presizes each result column to `numGroups` and writes slot
`i` in the i-th sorted-key iteration; the column is therefore the map of
the cell function over the sorted keys. -/
def aggregateOut (df : EDF) (bys : List String)
    (gs : List (String × List Nat)) (f : Col → Except String (Option ℚ)) : EDF :=
  let keys := getSortedKeys gs
  ⟨bys ++ df.order.filter (fun c => ! bys.contains c),
    bys.map (fun c => (c, keys.map (fun k =>
        some (GoVal.vStr (renderCell
          ((df.colD c).getD (((gs.lookup k).getD []).headD 0) none))))))
      ++ (df.order.filter (fun c => ! bys.contains c)).map
          (fun c => (c, keys.map (fun k => aggCell df gs c k f)))⟩

/-- `aggregate` as called by `Sum`/`Mean`/`Min`/`Max`: it returns
`(df, nil)` — the error result is always nil (every per-cell failure is
recovered by `SetNull`). -/
def aggregateRun (df : EDF) (bys : List String)
    (gs : List (String × List Nat)) (f : Col → Except String (Option ℚ)) :
    Except String EDF :=
  .ok (aggregateOut df bys gs f)

/-- Rows `i` and `j` fall into the same group of the groups table. -/
def sameGroup (gs : List (String × List Nat)) (i j : Nat) : Prop :=
  ∃ p ∈ gs, i ∈ p.2 ∧ j ∈ p.2

/-! ## Melt (src/dataframe/pivot.go lines 393-507) -/

/-- The default value variables: every column not among the id
variables, in column order (pivot.go lines 420-426). -/
def meltDefaultVars (df : EDF) (idVars : List String) : List String :=
  df.order.filter (fun c => ! idVars.contains c)

/-- `Melt`: validates the id columns, defaults the value variables to
every column not among the id variables (otherwise validates the given
ones), errors when nothing is left to melt, then emits one output row
per (source row × value variable) in row-major order: the id values
(nulls propagate), the literal value-variable name in the variable
column, and the source cell (null propagates) in the value column.  The
Go code presizes the id/variable columns and writes slot
`i * numValueVars + k`, and appends to the value column in the same
order; the columns are therefore these row-major comprehensions. -/
def melt (df : EDF) (idVars valueVars : List String)
    (varName valueName : String) :
    Except String (List String × List (String × Col)) :=
  let vn := if varName = "" then "variable" else varName
  let vln := if valueName = "" then "value" else valueName
  if (idVars.find? (fun c => (df.col c).isNone)).isSome then
    .error "id_vars column not found"
  else
    match (if valueVars = [] then
        .ok (meltDefaultVars df idVars)
      else if (valueVars.find? (fun c => (df.col c).isNone)).isSome then
        .error "value_vars column not found"
      else .ok valueVars : Except String (List String)) with
    | .error e => .error e
    | .ok vvars =>
      if vvars = [] then .error "no columns to melt"
      else
        .ok (idVars ++ [vn, vln],
          idVars.map (fun c => (c, (List.range df.Len).flatMap
            (fun i => List.replicate vvars.length ((df.colD c).getD i none))))
          ++ [(vn, (List.range df.Len).flatMap
                (fun _ => vvars.map (fun c => some (GoVal.vStr c)))),
              (vln, (List.range df.Len).flatMap
                (fun i => vvars.map (fun c => (df.colD c).getD i none)))])

/-- Collapse frame for the C10 witness: rows ("a_b", "c") and
("a", "b_c") — distinct value tuples, identical joined renderings. -/
def wdfD : EDF :=
  ⟨["c1", "c2"],
    [("c1", [some (.vStr "a_b"), some (.vStr "a")]),
     ("c2", [some (.vStr "c"), some (.vStr "b_c")])]⟩

/-- Group frame for witnesses: cat = [x, x, y], val = [1, 2, 3]. -/
def wdfC : EDF :=
  ⟨["cat", "val"],
    [("cat", [some (.vStr "x"), some (.vStr "x"), some (.vStr "y")]),
     ("val", [some (.vInt 1), some (.vInt 2), some (.vInt 3)])]⟩

/-- The same rows as `wdfC` in reversed order. -/
def wdfC2 : EDF :=
  ⟨["cat", "val"],
    [("cat", [some (.vStr "y"), some (.vStr "x"), some (.vStr "x")]),
     ("val", [some (.vInt 3), some (.vInt 2), some (.vInt 1)])]⟩

/-- One-group frame for the C3 witness: a string column (not coercible to
a number) and an all-null column. -/
def wdfE : EDF :=
  ⟨["g", "s", "e"],
    [("g", [some (.vStr "x")]),
     ("s", [some (.vStr "abc")]),
     ("e", [none])]⟩

/-- Melt frame for the C9 witness: Name = [A, B], Math = [90, 80]
(spec concrete scenario 4). -/
def wdfM : EDF :=
  ⟨["Name", "Math"],
    [("Name", [some (.vStr "A"), some (.vStr "B")]),
     ("Math", [some (.vInt 90), some (.vInt 80)])]⟩

/-! ## END OF DEFINITIONS -/

/-! ## Counting lemmas for the join cardinality -/

theorem rowsMin_of_wellFormed (df : EDF) (n : Nat) (hwf : WellFormed df n)
    (hne : df.order ≠ []) : rowsMin df = n := by
  obtain ⟨c, rest, hmo⟩ : ∃ c rest, df.order = c :: rest := by
    cases h : df.order with
    | nil => exact absurd h hne
    | cons a l => exact ⟨a, l, rfl⟩
  obtain ⟨s, hs, hlen⟩ := hwf c (by rw [hmo]; exact List.mem_cons_self c rest)
  have hrest : ∀ c2 ∈ rest, ∃ s2, df.col c2 = some s2 ∧ s2.length = n := by
    intro c2 hc2
    exact hwf c2 (by rw [hmo]; exact List.mem_cons_of_mem c hc2)
  unfold rowsMin
  rw [hmo]
  simp only [hs, hlen]
  clear hs hlen hmo
  induction rest with
  | nil => rfl
  | cons c2 rest2 ih =>
    obtain ⟨s2, hs2, hlen2⟩ := hrest c2 (List.mem_cons_self c2 rest2)
    rw [List.foldl_cons]
    have hone : (match df.col c2 with
        | some s3 => if s3.length < n then s3.length else n
        | none => n) = n := by
      simp [hs2, hlen2]
    rw [hone]
    exact ih (fun c3 hc3 => hrest c3 (List.mem_cons_of_mem c2 hc3))

theorem colD_of_wellFormed (df : EDF) (n : Nat) (hwf : WellFormed df n)
    (c : String) (hc : c ∈ df.order) : (df.colD c).length = n := by
  obtain ⟨s, hs, hlen⟩ := hwf c hc
  simp [EDF.colD, hs, hlen]

theorem range_map_getD {α β : Type} (l : List α) (d : α) (f : α → β) :
    (List.range l.length).map (fun j => f (l.getD j d)) = l.map f := by
  induction l with
  | nil => rfl
  | cons x xs ih =>
    rw [List.length_cons, List.range_succ_eq_map, List.map_cons, List.map_map]
    simp only [List.getD_cons_zero, List.getD_cons_succ, Function.comp_def]
    rw [ih, List.map_cons]

theorem countP_range_getD {α : Type} (l : List α) (d : α) (p : α → Bool) :
    (List.range l.length).countP (fun j => p (l.getD j d)) = l.countP p := by
  have h1 : (List.range l.length).map (fun j => l.getD j d) = l := by
    simpa using range_map_getD l d id
  conv_rhs => rw [← h1]
  rw [List.countP_map]
  rfl

theorem keyMatches_length (key : Col) (rows : Nat) (v : GoVal)
    (hlen : key.length = rows) :
    (keyMatches key rows v).length = key.count (some v) := by
  subst hlen
  rw [keyMatches, ← List.countP_eq_length_filter,
    countP_range_getD key none (fun x => decide (x = some v)), List.count]
  refine List.countP_congr (fun x _ => ?_)
  constructor
  · intro h; simp_all
  · intro h; simp_all

theorem count_filterMap_id (l : List (Option GoVal)) (v : GoVal) :
    (l.filterMap id).count v = l.count (some v) := by
  induction l with
  | nil => rfl
  | cons x xs ih =>
    cases x with
    | none => simpa [List.filterMap_cons] using ih
    | some a =>
      by_cases hav : a = v
      · subst hav; simp [List.filterMap_cons, List.count_cons, ih]
      · simp [List.filterMap_cons, List.count_cons, ih, hav]

theorem sum_map_optGetD (l : List (Option GoVal)) (f : GoVal → ℕ) :
    (l.map (fun x => ((x.map f).getD 0))).sum = ((l.filterMap id).map f).sum := by
  induction l with
  | nil => rfl
  | cons x xs ih =>
    cases x with
    | none => simpa [List.filterMap_cons] using ih
    | some a => simp [List.filterMap_cons, ih]

theorem sum_over_distinct (l : List (Option GoVal)) (f : GoVal → ℕ) :
    (l.map (fun x => ((x.map f).getD 0))).sum =
      ∑ v ∈ (l.filterMap id).toFinset, l.count (some v) * f v := by
  rw [sum_map_optGetD, Finset.sum_list_map_count]
  refine Finset.sum_congr rfl (fun v _ => ?_)
  rw [count_filterMap_id, smul_eq_mul]

/-- C1.  For non-nil DataFrames A and B both containing the join column k
(with well-formed columns), the inner merge validates, and its output row
count is the sum over each distinct non-null key value v of
(A rows with key v) * (B rows with key v); null keys on either side
contribute nothing and never match each other. -/
theorem inner_merge_cardinality (df1 df2 : EDF) (onCol : String) (n1 n2 : Nat)
    (h1 : WellFormed df1 n1) (h2 : WellFormed df2 n2)
    (hon1 : onCol ∈ df1.order) (hon2 : onCol ∈ df2.order) :
    mergeResultRows df1 df2 onCol "inner" =
      .ok (performInnerMerge df1 df2 onCol n1 n2) ∧
    (performInnerMerge df1 df2 onCol n1 n2).length =
      ∑ v ∈ ((df1.colD onCol).filterMap id).toFinset,
        (df1.colD onCol).count (some v) * (df2.colD onCol).count (some v) := by
  obtain ⟨s1, hs1, hlen1⟩ := h1 onCol hon1
  obtain ⟨s2, hs2, hlen2⟩ := h2 onCol hon2
  have hr1 : rowsMin df1 = n1 :=
    rowsMin_of_wellFormed df1 n1 h1 (List.ne_nil_of_mem hon1)
  have hr2 : rowsMin df2 = n2 :=
    rowsMin_of_wellFormed df2 n2 h2 (List.ne_nil_of_mem hon2)
  constructor
  · rw [mergeResultRows]
    simp only [hs1, hs2, Option.isNone_some, Bool.false_eq_true, if_false, hr1, hr2]
  · rw [performInnerMerge, List.length_flatMap]
    have hkeyA : (df1.colD onCol).length = n1 := by simp [EDF.colD, hs1, hlen1]
    have hkeyB : (df2.colD onCol).length = n2 := by simp [EDF.colD, hs2, hlen2]
    have hstep : ∀ i : Nat,
        (match (df1.colD onCol).getD i none with
          | none => ([] : List MergeRow)
          | some key =>
            (keyMatches (df2.colD onCol) n2 key).map
              (fun j => combinedRow df1 df2 onCol i j)).length =
        ((((df1.colD onCol).getD i none).map
          (fun v => (df2.colD onCol).count (some v))).getD 0) := by
      intro i
      cases hki : (df1.colD onCol).getD i none with
      | none => simp
      | some v =>
        simp only [List.length_map, Option.map_some, Option.getD_some]
        exact keyMatches_length (df2.colD onCol) n2 v hkeyB
    calc ((List.range n1).map (fun i =>
            (match (df1.colD onCol).getD i none with
              | none => ([] : List MergeRow)
              | some key =>
                (keyMatches (df2.colD onCol) n2 key).map
                  (fun j => combinedRow df1 df2 onCol i j)).length)).sum
        = ((List.range n1).map (fun i =>
            ((((df1.colD onCol).getD i none).map
              (fun v => (df2.colD onCol).count (some v))).getD 0))).sum := by
          congr 1
          exact List.map_congr_left (fun i _ => hstep i)
      _ = ((df1.colD onCol).map (fun x =>
            ((x.map (fun v => (df2.colD onCol).count (some v))).getD 0))).sum := by
          rw [← hkeyA, range_map_getD (df1.colD onCol) none
            (fun x => ((x.map (fun v => (df2.colD onCol).count (some v))).getD 0))]
      _ = _ := sum_over_distinct (df1.colD onCol) (fun v => (df2.colD onCol).count (some v))

theorem mem_processedKeys (df1 : EDF) (onCol : String) (leftRows : Nat) (k : GoVal) :
    k ∈ processedKeys df1 onCol leftRows ↔
      ∃ i < leftRows, (df1.colD onCol).getD i none = some k := by
  rw [processedKeys, List.mem_filterMap]
  constructor
  · rintro ⟨i, hi, hk⟩
    exact ⟨i, List.mem_range.mp hi, hk⟩
  · rintro ⟨i, hi, hk⟩
    exact ⟨i, List.mem_range.mpr hi, hk⟩

/-- C2.  Full-merge completeness: the full merge output is the left merge
output followed by exactly one row per unmatched right row (unmatched =
null key, or key equal to no left key), so its row count is the left
count plus the unmatched count; each appended row is null in every left
column except the join column, which carries that right row's key cell. -/
theorem full_merge_completeness (df1 df2 : EDF) (onCol : String) (n1 n2 : Nat)
    (h1 : WellFormed df1 n1) (h2 : WellFormed df2 n2)
    (hon1 : onCol ∈ df1.order) (hon2 : onCol ∈ df2.order) :
    mergeResultRows df1 df2 onCol "full" =
      .ok (performFullMerge df1 df2 onCol n1 n2) ∧
    mergeResultRows df1 df2 onCol "left" =
      .ok (performLeftMerge df1 df2 onCol n1 n2) ∧
    performFullMerge df1 df2 onCol n1 n2 =
      performLeftMerge df1 df2 onCol n1 n2 ++
        ((List.range n2).filter (fun j => fullUnmatched df1 df2 onCol n1 j)).map
          (fun j => rightOnlyRow df1 df2 onCol j) ∧
    (performFullMerge df1 df2 onCol n1 n2).length =
      (performLeftMerge df1 df2 onCol n1 n2).length +
        ((List.range n2).filter (fun j => fullUnmatched df1 df2 onCol n1 j)).length ∧
    (∀ j, fullUnmatched df1 df2 onCol n1 j = true ↔
      ((df2.colD onCol).getD j none = none ∨
        ∀ i < n1, (df1.colD onCol).getD i none ≠ (df2.colD onCol).getD j none)) ∧
    (∀ j,
      (rightOnlyRow df1 df2 onCol j).getD (df1.order.indexOf onCol) none =
        (df2.colD onCol).getD j none ∧
      ∀ idx < df1.order.length, idx ≠ df1.order.indexOf onCol →
        (rightOnlyRow df1 df2 onCol j).getD idx none = none) := by
  obtain ⟨s1, hs1, hlen1⟩ := h1 onCol hon1
  obtain ⟨s2, hs2, hlen2⟩ := h2 onCol hon2
  have hr1 : rowsMin df1 = n1 :=
    rowsMin_of_wellFormed df1 n1 h1 (List.ne_nil_of_mem hon1)
  have hr2 : rowsMin df2 = n2 :=
    rowsMin_of_wellFormed df2 n2 h2 (List.ne_nil_of_mem hon2)
  have hidx : df1.order.indexOf onCol < df1.order.length :=
    List.indexOf_lt_length.mpr hon1
  refine ⟨?_, ?_, rfl, ?_, ?_, ?_⟩
  · rw [mergeResultRows]
    simp only [hs1, hs2, Option.isNone_some, Bool.false_eq_true, if_false, hr1, hr2]
  · rw [mergeResultRows]
    simp only [hs1, hs2, Option.isNone_some, Bool.false_eq_true, if_false, hr1, hr2]
  · rw [performFullMerge, List.length_append, List.length_map]
  · intro j
    rw [fullUnmatched]
    cases hkj : (df2.colD onCol).getD j none with
    | none => simp
    | some k =>
      simp only [Bool.not_eq_true', reduceCtorEq, false_or]
      constructor
      · intro hc i hi hne
        have hmem : k ∈ processedKeys df1 onCol n1 :=
          (mem_processedKeys df1 onCol n1 k).mpr ⟨i, hi, hne⟩
        simp at hc
        exact hc hmem
      · intro hall
        have hnmem : k ∉ processedKeys df1 onCol n1 := by
          rw [mem_processedKeys]
          rintro ⟨i, hi, hk⟩
          exact hall i hi hk
        simp [hnmem]
  · intro j
    constructor
    · rw [rightOnlyRow]
      rw [List.getD_append _ _ _ _ (by rw [List.length_map, List.length_range]; exact hidx)]
      rw [List.getD_eq_getElem?_getD, List.getElem?_map, List.getElem?_range hidx]
      simp
    · intro idx hlt hne
      rw [rightOnlyRow]
      rw [List.getD_append _ _ _ _ (by rw [List.length_map, List.length_range]; exact hlt)]
      rw [List.getD_eq_getElem?_getD, List.getElem?_map, List.getElem?_range hlt]
      simp [hne]

theorem wdfA_wellFormed : WellFormed wdfA 3 := by
  intro c hc
  fin_cases hc <;> exact ⟨_, rfl, rfl⟩

theorem wdfB_wellFormed : WellFormed wdfB 3 := by
  intro c hc
  fin_cases hc <;> exact ⟨_, rfl, rfl⟩

theorem inner_merge_cardinality_witness :
    WellFormed wdfA 3 ∧
    (performInnerMerge wdfA wdfB "ID" 3 3).length =
      ∑ v ∈ ((wdfA.colD "ID").filterMap id).toFinset,
        (wdfA.colD "ID").count (some v) * (wdfB.colD "ID").count (some v) :=
  ⟨wdfA_wellFormed,
    (inner_merge_cardinality wdfA wdfB "ID" 3 3 wdfA_wellFormed wdfB_wellFormed
      (by decide) (by decide)).2⟩

theorem full_merge_completeness_witness :
    WellFormed wdfB 3 ∧
    (performFullMerge wdfA wdfB "ID" 3 3).length =
      (performLeftMerge wdfA wdfB "ID" 3 3).length +
        ((List.range 3).filter (fun j => fullUnmatched wdfA wdfB "ID" 3 j)).length :=
  ⟨wdfB_wellFormed,
    (full_merge_completeness wdfA wdfB "ID" 3 3 wdfA_wellFormed wdfB_wellFormed
      (by decide) (by decide)).2.2.2.1⟩

/-! ## Series layer theorems -/

theorem getD_take_drop {β : Type} (l : List β) (a m j : Nat) (d : β)
    (hj : j < ((l.drop a).take m).length) :
    ((l.drop a).take m).getD j d = l.getD (a + j) d := by
  have hjm : j < m := lt_of_lt_of_le hj (by simpa using List.length_take_le m (l.drop a))
  rw [List.getD_eq_getElem?_getD, List.getD_eq_getElem?_getD,
    List.getElem?_take_of_lt hjm, List.getElem?_drop]

theorem length_take_drop_lt {β : Type} (l : List β) (a m j : Nat)
    (hj : j < ((l.drop a).take m).length) : a + j < l.length := by
  rw [List.length_take, List.length_drop] at hj
  omega

/-- C5.  For every Series variant (any element type `α`, zero `z`, type
assertion `cast`), every well-formed series, every in-range index `i` and
every value `v` of the series element type (`cast v = some w`):
`Set(i, v)` succeeds, and afterwards `At(i)` returns the stored value `w`
(the unboxing of `v`) with no error and `IsNull(i)` is false. -/
theorem set_at_isNull_roundtrip {α : Type} (z : α) (cast : GoVal → Option α)
    (s : SeriesRep α) (i : Int) (v : GoVal) (w : α)
    (hinv : LenInv s) (h0 : 0 ≤ i) (hlt : i < (s.data.length : Int))
    (hcast : cast v = some w) :
    SeriesRep.sSet z cast s i (some v) =
      .ok ⟨s.data.set i.toNat w, s.mask.set i.toNat false⟩ ∧
    SeriesRep.sAt ⟨s.data.set i.toNat w, s.mask.set i.toNat false⟩ i =
      .ok (some w) ∧
    SeriesRep.sIsNull ⟨s.data.set i.toNat w, s.mask.set i.toNat false⟩ i = false := by
  have hguard : ¬ (i < 0 ∨ (s.data.length : Int) ≤ i) := by omega
  have hiN : i.toNat < s.data.length := by omega
  have hiM : i.toNat < s.mask.length := by rw [← hinv]; exact hiN
  refine ⟨?_, ?_, ?_⟩
  · rw [SeriesRep.sSet, if_neg hguard, hcast]
  · rw [SeriesRep.sAt]
    have hlen2 : (s.data.set i.toNat w).length = s.data.length := by
      rw [List.length_set]
    rw [hlen2, if_neg hguard]
    rw [List.getD_eq_getElem?_getD, List.getElem?_set_eq hiM]
    simp only [Option.getD_some, Bool.false_eq_true, if_false]
    rw [List.getElem?_set_eq hiN]
  · rw [SeriesRep.sIsNull]
    have hlen2 : (s.mask.set i.toNat false).length = s.mask.length := by
      rw [List.length_set]
    rw [hlen2, if_neg (by omega : ¬ (i < 0 ∨ (s.mask.length : Int) ≤ i))]
    rw [List.getD_eq_getElem?_getD, List.getElem?_set_eq hiM]
    rfl

theorem set_at_isNull_roundtrip_witness :
    LenInv (⟨[0, 0], [false, true]⟩ : SeriesRep ℚ) ∧
    SeriesRep.sSet 0 castFloat64 (⟨[0, 0], [false, true]⟩ : SeriesRep ℚ) 1
        (some (.vFloat 5)) =
      .ok ⟨[0, 5], [false, false]⟩ ∧
    SeriesRep.sAt (⟨[0, 5], [false, false]⟩ : SeriesRep ℚ) 1 = .ok (some 5) ∧
    SeriesRep.sIsNull (⟨[0, 5], [false, false]⟩ : SeriesRep ℚ) 1 = false := by
  refine ⟨rfl, ?_⟩
  have h := set_at_isNull_roundtrip 0 castFloat64
    (⟨[0, 0], [false, true]⟩ : SeriesRep ℚ) 1 (.vFloat 5) 5
    rfl (by decide) (by decide) rfl
  simpa using h

theorem sSet_ok_inv {α : Type} (z : α) (cast : GoVal → Option α)
    (s : SeriesRep α) (i : Int) (v : Option GoVal) (s2 : SeriesRep α)
    (h : SeriesRep.sSet z cast s i v = .ok s2) :
    s2 = ⟨s.data.set i.toNat z, s.mask.set i.toNat true⟩ ∨
    ∃ w, s2 = ⟨s.data.set i.toNat w, s.mask.set i.toNat false⟩ := by
  rw [SeriesRep.sSet.eq_def] at h
  split at h
  · cases h
  · cases v with
    | none =>
      cases h
      exact Or.inl rfl
    | some g =>
      dsimp only at h
      cases hc : cast g with
      | none => rw [hc] at h; cases h
      | some w =>
        rw [hc] at h
        cases h
        exact Or.inr ⟨w, rfl⟩

theorem sSetNull_ok_inv {α : Type} (z : α) (s : SeriesRep α) (i : Int)
    (s2 : SeriesRep α) (h : SeriesRep.sSetNull z s i = .ok s2) :
    s2 = ⟨s.data.set i.toNat z, s.mask.set i.toNat true⟩ := by
  rw [SeriesRep.sSetNull] at h
  split at h
  · cases h
  · cases h; rfl

theorem sAppend_ok_inv {α : Type} (z : α) (cast : GoVal → Option α)
    (s : SeriesRep α) (v : Option GoVal) (s2 : SeriesRep α)
    (h : SeriesRep.sAppend z cast s v = .ok s2) :
    s2 = ⟨s.data ++ [z], s.mask ++ [true]⟩ ∨
    ∃ w, s2 = ⟨s.data ++ [w], s.mask ++ [false]⟩ := by
  rw [SeriesRep.sAppend.eq_def] at h
  cases v with
  | none =>
    cases h
    exact Or.inl rfl
  | some g =>
    dsimp only at h
    cases hc : cast g with
    | none => rw [hc] at h; cases h
    | some w =>
      rw [hc] at h
      cases h
      exact Or.inr ⟨w, rfl⟩

theorem sSlice_ok_inv {α : Type} (s : SeriesRep α) (a b : Int)
    (s2 : SeriesRep α) (h : SeriesRep.sSlice s a b = .ok s2) :
    s2 = ⟨(s.data.drop a.toNat).take (b - a).toNat,
      (s.mask.drop a.toNat).take (b - a).toNat⟩ := by
  rw [SeriesRep.sSlice] at h
  split at h
  · cases h
  · cases h; rfl

theorem applySOp_lenInv {α : Type} (z : α) (cast : GoVal → Option α)
    (s : SeriesRep α) (op : SOp) (h : LenInv s) :
    LenInv (applySOp z cast s op) := by
  cases op with
  | set i v =>
    rw [applySOp]
    split
    · rename_i s2 heq
      rcases sSet_ok_inv z cast s i v s2 heq with h2 | ⟨w, h2⟩ <;>
        (subst h2; simpa [LenInv, List.length_set] using h)
    · exact h
  | setNull i =>
    rw [applySOp]
    split
    · rename_i s2 heq
      rw [sSetNull_ok_inv z s i s2 heq]
      simpa [LenInv, List.length_set] using h
    · exact h
  | append v =>
    rw [applySOp]
    split
    · rename_i s2 heq
      rcases sAppend_ok_inv z cast s v s2 heq with h2 | ⟨w, h2⟩ <;>
        (subst h2; simpa [LenInv] using h)
    · exact h
  | appendNull =>
    rw [applySOp, SeriesRep.sAppendNull]
    simpa [LenInv] using h
  | slice a b =>
    rw [applySOp]
    split
    · rename_i s2 heq
      rw [sSlice_ok_inv s a b s2 heq]
      simp only [LenInv, List.length_take, List.length_drop]
      rw [h]
    · exact h

theorem setNullZero {α : Type} (z : α) (s : SeriesRep α) (k : Nat)
    (hz : NullZero z s) :
    NullZero z ⟨s.data.set k z, s.mask.set k true⟩ := by
  intro j hj hmask
  simp only [List.length_set] at hj
  by_cases hjk : j = k
  · subst hjk
    by_cases hjd : j < s.data.length
    · rw [List.getD_eq_getElem?_getD, List.getElem?_set_eq hjd]
      rfl
    · rw [List.getD_eq_getElem?_getD]
      rw [List.getElem?_eq_none (by simpa using not_lt.mp hjd)]
      rfl
  · simp only [List.getD_eq_getElem?_getD,
      List.getElem?_set_ne (fun hk => hjk hk.symm)] at hmask ⊢
    have h3 := hz j hj
    rw [List.getD_eq_getElem?_getD, List.getD_eq_getElem?_getD] at h3
    exact h3 hmask

theorem setValZero {α : Type} (z w : α) (s : SeriesRep α) (k : Nat)
    (hz : NullZero z s) :
    NullZero z ⟨s.data.set k w, s.mask.set k false⟩ := by
  intro j hj hmask
  simp only [List.length_set] at hj
  by_cases hjk : j = k
  · subst hjk
    exfalso
    by_cases hjm : j < s.mask.length
    · rw [List.getD_eq_getElem?_getD, List.getElem?_set_eq hjm] at hmask
      simp at hmask
    · exact hjm hj
  · simp only [List.getD_eq_getElem?_getD,
      List.getElem?_set_ne (fun hk => hjk hk.symm)] at hmask ⊢
    have h3 := hz j hj
    rw [List.getD_eq_getElem?_getD, List.getD_eq_getElem?_getD] at h3
    exact h3 hmask

theorem appendZero {α : Type} (z x : α) (b : Bool) (s : SeriesRep α)
    (hinv : LenInv s) (hz : NullZero z s) (hx : b = true → x = z) :
    NullZero z ⟨s.data ++ [x], s.mask ++ [b]⟩ := by
  intro j hj hmask
  simp only [List.length_append, List.length_cons, List.length_nil] at hj
  by_cases hjm : j < s.mask.length
  · rw [List.getD_eq_getElem?_getD, List.getElem?_append_left hjm] at hmask
    have hjd : j < s.data.length := by rw [hinv]; exact hjm
    rw [List.getD_eq_getElem?_getD, List.getElem?_append_left hjd]
    have h3 := hz j hjm
    rw [List.getD_eq_getElem?_getD, List.getD_eq_getElem?_getD] at h3
    exact h3 hmask
  · have hje : j = s.mask.length := by omega
    subst hje
    rw [List.getD_eq_getElem?_getD, List.getElem?_concat_length] at hmask
    simp only [Option.getD_some] at hmask
    rw [List.getD_eq_getElem?_getD, ← hinv, List.getElem?_concat_length]
    simp [hx hmask]

theorem applySOp_nullZero {α : Type} (z : α) (cast : GoVal → Option α)
    (s : SeriesRep α) (op : SOp) (hinv : LenInv s) (hz : NullZero z s) :
    NullZero z (applySOp z cast s op) := by
  cases op with
  | set i v =>
    rw [applySOp]
    split
    · rename_i s2 heq
      rcases sSet_ok_inv z cast s i v s2 heq with h2 | ⟨w, h2⟩
      · rw [h2]; exact setNullZero z s i.toNat hz
      · rw [h2]; exact setValZero z w s i.toNat hz
    · exact hz
  | setNull i =>
    rw [applySOp]
    split
    · rename_i s2 heq
      rw [sSetNull_ok_inv z s i s2 heq]
      exact setNullZero z s i.toNat hz
    · exact hz
  | append v =>
    rw [applySOp]
    split
    · rename_i s2 heq
      rcases sAppend_ok_inv z cast s v s2 heq with h2 | ⟨w, h2⟩
      · rw [h2]; exact appendZero z z true s hinv hz (fun _ => rfl)
      · rw [h2]; exact appendZero z w false s hinv hz (by simp)
    · exact hz
  | appendNull =>
    rw [applySOp, SeriesRep.sAppendNull]
    exact appendZero z z true s hinv hz (fun _ => rfl)
  | slice a b =>
    rw [applySOp]
    split
    · rename_i s2 heq
      rw [sSlice_ok_inv s a b s2 heq]
      intro j hj hmask
      rw [getD_take_drop _ _ _ _ _ hj] at hmask
      have hjd : j < ((s.data.drop a.toNat).take (b - a).toNat).length := by
        simp only [List.length_take, List.length_drop] at hj ⊢
        rw [← hinv] at hj
        exact hj
      rw [getD_take_drop _ _ _ _ _ hjd]
      exact hz _ (length_take_drop_lt s.mask a.toNat (b - a).toNat j hj) hmask
    · exact hz

/-- C6 (amended).  For every Series variant: construction always
establishes `len(data) == len(mask)` and the length equality is preserved
by every sequence of operations (`Set`, `SetNull`, `Append`,
`AppendNull`, `Slice`, with `Slice` continuing on its deep copy); the
all-null-slots-hold-zero property is established by construction with an
omitted mask and is preserved by every operation, but construction from
caller-supplied data plus mask keeps the caller data under masked slots
(see the counterexample), so zeroed null slots are guaranteed only for
slots nulled by the operations. -/
theorem series_invariants {α : Type} (z : α) (cast : GoVal → Option α) :
    (∀ (d : List α) (m : Option (List Bool)) (s0 : SeriesRep α),
        SeriesRep.sFromData d m = .ok s0 →
        LenInv s0 ∧ (m = none → NullZero z s0)) ∧
    (∀ (s : SeriesRep α) (ops : List SOp), LenInv s →
        LenInv (runSOps z cast s ops) ∧
        (NullZero z s → NullZero z (runSOps z cast s ops))) := by
  constructor
  · intro d m s0 hmk
    cases m with
    | none =>
      rw [SeriesRep.sFromData] at hmk
      cases hmk
      constructor
      · simp [LenInv]
      · intro _
        intro j hj hmask
        simp only [List.length_replicate] at hj
        rw [List.getD_eq_getElem?_getD, List.getElem?_replicate] at hmask
        simp [hj] at hmask
    | some mm =>
      rw [SeriesRep.sFromData] at hmk
      split at hmk
      · cases hmk
      · cases hmk
        constructor
        · simpa [LenInv] using by omega
        · intro hcon
          cases hcon
  · intro s ops
    induction ops generalizing s with
    | nil => exact fun h => ⟨h, fun hz => hz⟩
    | cons op rest ih =>
      intro h
      have h2 := applySOp_lenInv z cast s op h
      obtain ⟨hla, hza⟩ := ih (applySOp z cast s op) h2
      refine ⟨hla, fun hz => hza (applySOp_nullZero z cast s op h hz)⟩

/-- C6 counterexample: constructing a Float64Series from data `[1, 2, 3]`
and mask `[false, true, false]` succeeds, yet the null slot at index 1
holds the caller value 2, not the zero value — the claimed
masked-slots-hold-zero invariant fails right after construction. -/
theorem series_nullzero_counterexample :
    SeriesRep.sFromData (α := ℚ) [1, 2, 3] (some [false, true, false]) =
      .ok ⟨[1, 2, 3], [false, true, false]⟩ ∧
    ¬ NullZero (0 : ℚ) ⟨[1, 2, 3], [false, true, false]⟩ := by
  constructor
  · rfl
  · intro hz
    have h2 := hz 1 (by decide) (by decide)
    simp [List.getD] at h2

theorem series_invariants_witness :
    LenInv (⟨[(1 : ℤ)], [false]⟩ : SeriesRep ℤ) ∧
    LenInv (runSOps 0 castInt64 (⟨[(1 : ℤ)], [false]⟩ : SeriesRep ℤ)
      [SOp.appendNull, SOp.setNull 0]) :=
  ⟨rfl,
    ((series_invariants 0 castInt64).2 ⟨[(1 : ℤ)], [false]⟩
      [SOp.appendNull, SOp.setNull 0] rfl).1⟩

/-- C7.  `Slice(start, end)` succeeds exactly when
`0 ≤ start ≤ end ≤ Len()`; on success the result has length
`end - start` and agrees with the source under `At` and `IsNull` at every
shifted index.  (The Go deep copy is value-semantic here: the result is
built from copied segments of the data and mask.) -/
theorem slice_spec {α : Type} (s : SeriesRep α) (start stop : Int)
    (hinv : LenInv s) :
    ((SeriesRep.sSlice s start stop).isOk = true ↔
      0 ≤ start ∧ start ≤ stop ∧ stop ≤ (s.data.length : Int)) ∧
    ∀ s2, SeriesRep.sSlice s start stop = .ok s2 →
      s2.data.length = (stop - start).toNat ∧
      ∀ i : Nat, i < (stop - start).toNat →
        SeriesRep.sAt s2 (i : Int) = SeriesRep.sAt s (start + i) ∧
        SeriesRep.sIsNull s2 (i : Int) = SeriesRep.sIsNull s (start + i) := by
  have hh : s.data.length = s.mask.length := hinv
  constructor
  · rw [SeriesRep.sSlice]
    split
    · rename_i hguard
      constructor
      · intro hok
        exact absurd hok (by simp [Except.isOk, Except.toBool])
      · intro hb
        exfalso
        omega
    · rename_i hguard
      constructor
      · intro _
        omega
      · intro _
        rfl
  · intro s2 hok
    have hguard : ¬ (start < 0 ∨ (s.data.length : Int) < stop ∨ stop < start) := by
      intro hg
      rw [SeriesRep.sSlice, if_pos hg] at hok
      cases hok
    have hshape := sSlice_ok_inv s start stop s2 hok
    subst hshape
    dsimp only
    have hdlen : ((s.data.drop start.toNat).take (stop - start).toNat).length =
        (stop - start).toNat := by
      rw [List.length_take, List.length_drop]
      omega
    have hmlen : ((s.mask.drop start.toNat).take (stop - start).toNat).length =
        (stop - start).toNat := by
      rw [List.length_take, List.length_drop, ← hh]
      omega
    refine ⟨hdlen, ?_⟩
    intro i hi
    have hsum : (start + (i : Int)).toNat = start.toNat + i := by omega
    have hiN : ((i : Int)).toNat = i := by omega
    have hg1 : ¬ ((i : Int) < 0 ∨
        ((((s.data.drop start.toNat).take (stop - start).toNat).length : Nat) : Int) ≤ (i : Int)) := by
      rw [hdlen]; omega
    have hg2 : ¬ (start + (i : Int) < 0 ∨ (s.data.length : Int) ≤ start + (i : Int)) := by
      omega
    have hg3 : ¬ ((i : Int) < 0 ∨
        ((((s.mask.drop start.toNat).take (stop - start).toNat).length : Nat) : Int) ≤ (i : Int)) := by
      rw [hmlen]; omega
    have hg4 : ¬ (start + (i : Int) < 0 ∨ (s.mask.length : Int) ≤ start + (i : Int)) := by
      omega
    constructor
    · rw [SeriesRep.sAt, SeriesRep.sAt]
      dsimp only
      rw [if_neg hg1, if_neg hg2, hiN, hsum]
      rw [getD_take_drop s.mask start.toNat ((stop - start).toNat) i false
        (by rw [hmlen]; exact hi)]
      rw [List.getElem?_take_of_lt hi, List.getElem?_drop]
    · rw [SeriesRep.sIsNull, SeriesRep.sIsNull]
      dsimp only
      rw [if_neg hg3, if_neg hg4, hiN, hsum]
      rw [getD_take_drop s.mask start.toNat ((stop - start).toNat) i false
        (by rw [hmlen]; exact hi)]

theorem slice_spec_witness :
    LenInv (⟨[(1 : ℤ), 2, 3], [false, true, false]⟩ : SeriesRep ℤ) ∧
    ((SeriesRep.sSlice (⟨[(1 : ℤ), 2, 3], [false, true, false]⟩ : SeriesRep ℤ)
        1 3).isOk = true ↔
      0 ≤ (1 : Int) ∧ (1 : Int) ≤ 3 ∧ (3 : Int) ≤ (3 : Nat)) :=
  ⟨rfl,
    (slice_spec (⟨[(1 : ℤ), 2, 3], [false, true, false]⟩ : SeriesRep ℤ)
      1 3 rfl).1⟩

/-! ## Rename theorems -/

theorem lookup_append_col {β : Type} (l1 l2 : List (String × β)) (c : String) :
    (l1 ++ l2).lookup c =
      match l1.lookup c with
      | some v => some v
      | none => l2.lookup c := by
  induction l1 with
  | nil => simp
  | cons p t ih =>
    by_cases hc : c = p.1
    · simp [List.lookup, hc]
    · have hb : (c == p.1) = false := by simp [hc]
      simp [List.lookup, hb, ih]

theorem lookup_eraseCol (m : List (String × Col)) (e c : String) :
    (mapEraseCol m e).lookup c = if c = e then none else m.lookup c := by
  induction m with
  | nil => simp [mapEraseCol]
  | cons p t ih =>
    by_cases hpe : p.1 = e
    · have : (mapEraseCol (p :: t) e) = mapEraseCol t e := by
        simp [mapEraseCol, hpe]
      rw [this, ih]
      by_cases hc : c = e
      · simp [hc]
      · have hb : (c == p.1) = false := by simp [hpe, hc]
        simp [hc, List.lookup, hb]
    · have : (mapEraseCol (p :: t) e) = p :: mapEraseCol t e := by
        simp [mapEraseCol, hpe]
      rw [this]
      by_cases hc : c = p.1
      · have hce : ¬ c = e := by rw [hc]; exact hpe
        simp [List.lookup, hc, hce, hpe]
      · have hb : (c == p.1) = false := by simp [hc]
        simp [List.lookup, hb, ih]

theorem lookup_insertCol (m : List (String × Col)) (k : String) (v : Col)
    (c : String) :
    (mapInsertCol m k v).lookup c = if c = k then some v else m.lookup c := by
  rw [mapInsertCol, lookup_append_col, lookup_eraseCol]
  by_cases hc : c = k
  · simp [hc, List.lookup]
  · have hb : (c == k) = false := by simp [hc]
    cases m.lookup c <;> simp [hc, List.lookup, hb]

theorem lookup_renameColsStep_ne (m : List (String × Col)) (o n c : String)
    (hco : c ≠ o) (hcn : c ≠ n) :
    (renameColsStep m (o, n)).lookup c = m.lookup c := by
  rw [renameColsStep]
  cases hm : m.lookup o with
  | none => rfl
  | some s =>
    dsimp only
    rw [lookup_insertCol, if_neg hcn, lookup_eraseCol, if_neg hco]

theorem lookup_renameColsStep_new (m : List (String × Col)) (o n : String)
    (hno : n ≠ o) (hfresh : m.lookup n = none) :
    (renameColsStep m (o, n)).lookup n = m.lookup o := by
  rw [renameColsStep]
  cases hm : m.lookup o with
  | none => exact hfresh
  | some s =>
    dsimp only
    rw [lookup_insertCol, if_pos rfl]

theorem lookup_renameColsStep_old (m : List (String × Col)) (o n : String)
    (hon : o ≠ n) :
    (renameColsStep m (o, n)).lookup o = none := by
  rw [renameColsStep]
  cases hm : m.lookup o with
  | none => exact hm
  | some s =>
    dsimp only
    rw [lookup_insertCol, if_neg hon, lookup_eraseCol, if_pos rfl]

theorem renameCols_lookup (entries : List (String × String))
    (m : List (String × Col))
    (h1 : (entries.map Prod.fst).Nodup)
    (h2 : (entries.map Prod.snd).Nodup)
    (h3 : ∀ e ∈ entries, e.2 ∉ entries.map Prod.fst)
    (h4 : ∀ e ∈ entries, m.lookup e.2 = none) :
    (∀ e ∈ entries,
       (entries.foldl renameColsStep m).lookup e.2 = m.lookup e.1 ∧
       (entries.foldl renameColsStep m).lookup e.1 = none) ∧
    (∀ c, c ∉ entries.map Prod.fst → c ∉ entries.map Prod.snd →
       (entries.foldl renameColsStep m).lookup c = m.lookup c) := by
  induction entries generalizing m with
  | nil => exact ⟨fun e he => absurd he (List.not_mem_nil e), fun c _ _ => rfl⟩
  | cons hd rest ih =>
    obtain ⟨o, n⟩ := hd
    simp only [List.map_cons, List.nodup_cons] at h1 h2
    have hno : n ≠ o := by
      have := h3 (o, n) (List.mem_cons_self _ _)
      simp only [List.map_cons, List.mem_cons] at this
      exact fun h => this (Or.inl h)
    have hnrestold : n ∉ rest.map Prod.fst := by
      have := h3 (o, n) (List.mem_cons_self _ _)
      simp only [List.map_cons, List.mem_cons] at this
      exact fun h => this (Or.inr h)
    have horestnew : o ∉ rest.map Prod.snd := by
      intro hmem
      obtain ⟨e, he, heq⟩ := List.mem_map.mp hmem
      have := h3 e (List.mem_cons_of_mem _ he)
      simp only [List.map_cons, List.mem_cons] at this
      exact this (Or.inl heq)
    set m2 := renameColsStep m (o, n) with hm2
    have h4rest : ∀ e ∈ rest, m2.lookup e.2 = none := by
      intro e he
      have hen : e.2 ≠ n := by
        intro h
        exact h2.1 (h ▸ List.mem_map_of_mem Prod.snd he)
      have heo : e.2 ≠ o := by
        have := h3 e (List.mem_cons_of_mem _ he)
        simp only [List.map_cons, List.mem_cons] at this
        exact fun h => this (Or.inl h)
      rw [hm2, lookup_renameColsStep_ne m o n e.2 heo hen]
      exact h4 e (List.mem_cons_of_mem _ he)
    have h3rest : ∀ e ∈ rest, e.2 ∉ rest.map Prod.fst := by
      intro e he hmem
      have := h3 e (List.mem_cons_of_mem _ he)
      simp only [List.map_cons, List.mem_cons] at this
      exact this (Or.inr hmem)
    obtain ⟨iha, ihc⟩ := ih m2 h1.2 h2.2 h3rest h4rest
    have hfold : ((o, n) :: rest).foldl renameColsStep m = rest.foldl renameColsStep m2 := by
      rw [List.foldl_cons]
    constructor
    · intro e he
      rcases List.mem_cons.mp he with heq | hrest
      · subst heq
        constructor
        · rw [hfold, ihc n hnrestold h2.1,
            lookup_renameColsStep_new m o n hno (h4 _ (List.mem_cons_self _ _))]
        · rw [hfold, ihc o (fun h => h1.1 h) horestnew,
            lookup_renameColsStep_old m o n (fun h => hno h.symm)]
      · have hen : e.1 ≠ n := by
          intro h
          exact hnrestold (h ▸ List.mem_map_of_mem Prod.fst hrest)
        have heo : e.1 ≠ o := by
          intro h
          exact h1.1 (h ▸ List.mem_map_of_mem Prod.fst hrest)
        obtain ⟨ha, hb⟩ := iha e hrest
        refine ⟨?_, hb⟩
        rw [hfold, ha, hm2, lookup_renameColsStep_ne m o n e.1 heo hen]
    · intro c hcold hcnew
      simp only [List.map_cons, List.mem_cons, not_or] at hcold hcnew
      rw [hfold, ihc c hcold.2 hcnew.2,
        hm2, lookup_renameColsStep_ne m o n c hcold.1 hcnew.1]

theorem renameFold_split (entries : List (String × String)) (df : EDF) :
    entries.foldl
        (fun acc oc => ⟨renameOrderStep acc.order oc, renameColsStep acc.cols oc⟩)
        df =
      ⟨entries.foldl renameOrderStep df.order,
        entries.foldl renameColsStep df.cols⟩ := by
  induction entries generalizing df with
  | nil => rfl
  | cons hd rest ih =>
    rw [List.foldl_cons, List.foldl_cons, List.foldl_cons, ih]

theorem renameOrder_fold_map (entries : List (String × String)) (l : List String) :
    entries.foldl renameOrderStep l =
      l.map (fun c => entries.foldl (fun x oc => if x = oc.1 then oc.2 else x) c) := by
  induction entries generalizing l with
  | nil => simp
  | cons hd rest ih =>
    rw [List.foldl_cons, renameOrderStep, ih, List.map_map]
    congr 1

/-- C8 counterexample: on a DataFrame with column A, `Rename` with the
empty rename map returns an error even though every old-name key of the
(empty) map vacuously exists, contradicting the claim that it succeeds
and renames in place. -/
theorem rename_empty_counterexample :
    (renameDF ⟨["A"], [("A", [some (.vInt 1)])]⟩ []).2.isSome = true ∧
    (renameDF ⟨["A"], [("A", [some (.vInt 1)])]⟩ []).1 =
      ⟨["A"], [("A", [some (.vInt 1)])]⟩ := by
  constructor <;> rfl

/-- C8 (amended).  For every DataFrame and every non-empty rename map
(entries listed in Go map iteration order): if some old-name key is
absent from the column order, Rename reports an error and leaves the
frame untouched (no partial rename); if every old-name key is present,
Rename succeeds, and the column order becomes the original order with
each name pushed through the successive entry substitutions in place
(same length, each renamed column keeping its position); when moreover
the new names are fresh (old names distinct, new names distinct, no new
name is an old name or an existing column-map key) the column map holds
each moved Series under its new name, drops the old names, and keeps
every untouched column. -/
theorem rename_spec (df : EDF) (entries : List (String × String))
    (hne : entries ≠ []) :
    ((∃ e ∈ entries, e.1 ∉ df.order) →
        (renameDF df entries).2.isSome = true ∧ (renameDF df entries).1 = df) ∧
    ((∀ e ∈ entries, e.1 ∈ df.order) →
        (renameDF df entries).2 = none ∧
        (renameDF df entries).1.order =
          df.order.map (fun c =>
            entries.foldl (fun x oc => if x = oc.1 then oc.2 else x) c) ∧
        ((entries.map Prod.fst).Nodup →
         (entries.map Prod.snd).Nodup →
         (∀ e ∈ entries, e.2 ∉ entries.map Prod.fst) →
         (∀ e ∈ entries, df.cols.lookup e.2 = none) →
           (∀ e ∈ entries,
             (renameDF df entries).1.cols.lookup e.2 = df.cols.lookup e.1 ∧
             (renameDF df entries).1.cols.lookup e.1 = none) ∧
           (∀ c, c ∉ entries.map Prod.fst → c ∉ entries.map Prod.snd →
             (renameDF df entries).1.cols.lookup c = df.cols.lookup c))) := by
  constructor
  · rintro ⟨e, he, hnot⟩
    have hfind : (entries.find? (fun e => ! df.order.contains e.1)).isSome = true := by
      rw [List.find?_isSome]
      refine ⟨e, he, ?_⟩
      simp [hnot]
    cases hf : entries.find? (fun e => ! df.order.contains e.1) with
    | none => rw [hf] at hfind; cases hfind
    | some e2 =>
      rw [renameDF, if_neg hne, hf]
      exact ⟨rfl, rfl⟩
  · intro hall
    have hf : entries.find? (fun e => ! df.order.contains e.1) = none := by
      rw [List.find?_eq_none]
      intro e he
      simp [hall e he]
    rw [renameDF, if_neg hne, hf]
    dsimp only
    rw [renameFold_split]
    refine ⟨rfl, ?_, ?_⟩
    · rw [renameOrder_fold_map]
    · intro h1 h2 h3 h4
      exact renameCols_lookup entries df.cols h1 h2 h3 h4

theorem rename_spec_witness :
    ([("A", "X")] : List (String × String)) ≠ [] ∧
    (renameDF ⟨["A", "B"], [("A", [some (.vInt 1)]), ("B", [some (.vInt 2)])]⟩
      [("A", "X")]).2 = none :=
  ⟨by decide,
    ((rename_spec ⟨["A", "B"], [("A", [some (.vInt 1)]), ("B", [some (.vInt 2)])]⟩
      [("A", "X")] (by decide)).2 (by decide)).1⟩

/-! ## GroupBy theorems -/

theorem lookup_map_modify (gs : List (String × List Nat)) (k : String)
    (i : Nat) :
    (gs.map (fun p => if p.1 = k then (p.1, p.2 ++ [i]) else p)).lookup k =
      (gs.lookup k).map (fun v => v ++ [i]) := by
  induction gs with
  | nil => rfl
  | cons p t ih =>
    by_cases hk : p.1 = k
    · rw [List.map_cons, if_pos hk]
      have hb : (k == p.1) = true := by simp [hk]
      simp [List.lookup, hb]
    · rw [List.map_cons, if_neg hk]
      have hb : (k == p.1) = false := by
        simp only [beq_eq_false_iff_ne, ne_eq]
        exact fun h => hk h.symm
      simp [List.lookup, hb, ih]

theorem lookup_map_modify_ne (gs : List (String × List Nat)) (k k2 : String)
    (i : Nat) (hne : k2 ≠ k) :
    (gs.map (fun p => if p.1 = k then (p.1, p.2 ++ [i]) else p)).lookup k2 =
      gs.lookup k2 := by
  induction gs with
  | nil => rfl
  | cons p t ih =>
    by_cases hk : p.1 = k
    · rw [List.map_cons, if_pos hk]
      have hb : (k2 == p.1) = false := by
        simp only [beq_eq_false_iff_ne, ne_eq]
        rw [hk]
        exact hne
      simp [List.lookup, hb, ih]
    · rw [List.map_cons, if_neg hk]
      by_cases h2 : k2 = p.1
      · have hb : (k2 == p.1) = true := by simp [h2]
        simp [List.lookup, hb]
      · have hb : (k2 == p.1) = false := by simp [h2]
        simp [List.lookup, hb, ih]

theorem lookup_none_iff_not_mem_keys {β : Type} (gs : List (String × β))
    (k : String) : gs.lookup k = none ↔ k ∉ gs.map Prod.fst := by
  induction gs with
  | nil => simp
  | cons p t ih =>
    by_cases hk : k = p.1
    · have hb : (k == p.1) = true := by simp [hk]
      simp [List.lookup, hb, hk]
    · have hb : (k == p.1) = false := by simp [hk]
      simp [List.lookup, hb, ih, hk]

theorem lookup_insertGroup_self (gs : List (String × List Nat)) (k : String)
    (i : Nat) :
    (insertGroup gs k i).lookup k = some (((gs.lookup k).getD []) ++ [i]) := by
  rw [insertGroup]
  cases h : gs.lookup k with
  | some v =>
    rw [if_pos (by rfl), lookup_map_modify, h]
    rfl
  | none =>
    rw [if_neg (by simp), lookup_append_col, h]
    simp [List.lookup]

theorem lookup_insertGroup_ne (gs : List (String × List Nat)) (k k2 : String)
    (i : Nat) (hne : k2 ≠ k) :
    (insertGroup gs k i).lookup k2 = gs.lookup k2 := by
  rw [insertGroup]
  split
  · exact lookup_map_modify_ne gs k k2 i hne
  · rw [lookup_append_col]
    have hb : (k2 == k) = false := by simp [hne]
    cases h : gs.lookup k2 with
    | some v => rfl
    | none => simp [List.lookup, hb]

theorem lookup_groupsFold (κ : Nat → String) (l : List Nat)
    (gs : List (String × List Nat)) (k : String) :
    ((l.foldl (fun acc i => insertGroup acc (κ i) i) gs).lookup k) =
      match gs.lookup k with
      | some v => some (v ++ l.filter (fun i => κ i = k))
      | none =>
        if l.filter (fun i => κ i = k) = [] then none
        else some (l.filter (fun i => κ i = k)) := by
  induction l generalizing gs with
  | nil =>
    cases h : gs.lookup k <;> simp [h]
  | cons i t ih =>
    rw [List.foldl_cons, ih]
    by_cases hik : κ i = k
    · have hfl : (i :: t).filter (fun j => decide (κ j = k)) =
          i :: t.filter (fun j => decide (κ j = k)) := by
        simp [List.filter_cons, hik]
      rw [hik, lookup_insertGroup_self]
      cases h : gs.lookup k with
      | some v =>
        simp only [Option.getD_some]
        rw [hfl]
        simp [List.append_assoc]
      | none =>
        simp only [Option.getD_none, List.nil_append]
        rw [hfl]
        simp
    · have hfl : (i :: t).filter (fun j => decide (κ j = k)) =
          t.filter (fun j => decide (κ j = k)) := by
        simp [List.filter_cons, hik]
      rw [lookup_insertGroup_ne gs (κ i) k i (fun h => hik h.symm), hfl]

theorem insertGroup_keys_nodup (gs : List (String × List Nat)) (k : String)
    (i : Nat) (h : (gs.map Prod.fst).Nodup) :
    ((insertGroup gs k i).map Prod.fst).Nodup := by
  rw [insertGroup]
  split
  · rename_i hs
    have : (gs.map (fun p => if p.1 = k then (p.1, p.2 ++ [i]) else p)).map
        Prod.fst = gs.map Prod.fst := by
      rw [List.map_map]
      refine List.map_congr_left (fun p _ => ?_)
      by_cases hp : p.1 = k <;> simp [hp]
    rw [this]
    exact h
  · rename_i hs
    have hnot : k ∉ gs.map Prod.fst := by
      rw [← lookup_none_iff_not_mem_keys]
      cases hl : gs.lookup k with
      | none => rfl
      | some v => rw [hl] at hs; exact absurd rfl hs
    simp [List.nodup_append, h, hnot]

theorem groupsFold_keys_nodup (κ : Nat → String) (l : List Nat)
    (gs : List (String × List Nat)) (h : (gs.map Prod.fst).Nodup) :
    ((l.foldl (fun acc i => insertGroup acc (κ i) i) gs).map Prod.fst).Nodup := by
  induction l generalizing gs with
  | nil => exact h
  | cons i t ih =>
    rw [List.foldl_cons]
    exact ih _ (insertGroup_keys_nodup gs (κ i) i h)

theorem lookup_of_mem_nodup {β : Type} (gs : List (String × β))
    (h : (gs.map Prod.fst).Nodup) (p : String × β) (hp : p ∈ gs) :
    gs.lookup p.1 = some p.2 := by
  induction gs with
  | nil => cases hp
  | cons q t ih =>
    simp only [List.map_cons, List.nodup_cons] at h
    rcases List.mem_cons.mp hp with heq | hmem
    · subst heq
      simp [List.lookup]
    · have hne : p.1 ≠ q.1 := by
        intro he
        exact h.1 (he ▸ List.mem_map_of_mem Prod.fst hmem)
      have hb : (p.1 == q.1) = false := by simp [hne]
      simp only [List.lookup, hb]
      exact ih h.2 hmem

theorem lookup_some_mem {β : Type} (gs : List (String × β)) (k : String)
    (v : β) (h : gs.lookup k = some v) : (k, v) ∈ gs := by
  induction gs with
  | nil => cases h
  | cons q t ih =>
    by_cases hk : k = q.1
    · have hb : (k == q.1) = true := by simp [hk]
      simp only [List.lookup, hb] at h
      cases h
      rw [hk]
      exact List.mem_cons_self _ _
    · have hb : (k == q.1) = false := by simp [hk]
      simp only [List.lookup, hb] at h
      exact List.mem_cons_of_mem _ (ih h)

theorem mapM_ok {γ δ : Type} (l : List γ) (f : γ → Except String δ)
    (g : γ → δ) (h : ∀ c ∈ l, f c = .ok (g c)) :
    l.mapM f = .ok (l.map g) := by
  induction l with
  | nil => rfl
  | cons c t ih =>
    rw [List.mapM_cons, h c (List.mem_cons_self c t),
      ih (fun c2 hc2 => h c2 (List.mem_cons_of_mem c hc2))]
    rfl

theorem rowKeyE_ok (df : EDF) (bys : List String) (i : Nat)
    (h : ∀ c ∈ bys, i < (df.colD c).length) :
    rowKeyE df bys i = .ok (rowKey df bys i) := by
  have hmap := mapM_ok bys (fun c => colAt (df.colD c) i)
    (fun c => (df.colD c).getD i none)
    (fun c hc => by simp [colAt, h c hc])
  rw [rowKeyE, hmap]
  show Except.ok (String.intercalate "_"
    ((bys.map (fun c => (df.colD c).getD i none)).map renderCell)) = _
  rw [rowKey, List.map_map]
  rfl

theorem foldlM_groups_ok (df : EDF) (bys : List String) (l : List Nat)
    (h : ∀ i ∈ l, rowKeyE df bys i = .ok (rowKey df bys i))
    (init : List (String × List Nat)) :
    (l.foldlM (fun gs i => (rowKeyE df bys i).map (fun k => insertGroup gs k i))
        init) =
      .ok (l.foldl (fun gs i => insertGroup gs (rowKey df bys i) i) init) := by
  induction l generalizing init with
  | nil => rfl
  | cons i t ih =>
    rw [List.foldlM_cons, h i (List.mem_cons_self i t)]
    exact ih (fun j hj => h j (List.mem_cons_of_mem i hj))
      (insertGroup init (rowKey df bys i) i)

theorem len_le_col_length (df : EDF) (n : Nat) (hwf : WellFormed df n)
    (c : String) (hc : c ∈ df.order) (i : Nat) (hi : i < df.Len) :
    i < (df.colD c).length := by
  have hcn : (df.colD c).length = n := colD_of_wellFormed df n hwf c hc
  rw [hcn]
  cases hmo : df.order with
  | nil => rw [hmo] at hc; cases hc
  | cons c0 rest =>
    have h0 : (df.colD c0).length = n :=
      colD_of_wellFormed df n hwf c0 (by rw [hmo]; exact List.mem_cons_self _ _)
    rw [EDF.Len, hmo] at hi
    rw [← h0]
    exact hi

theorem groupByE_eq_buildGroups (df : EDF) (bys : List String) (n : Nat)
    (hwf : WellFormed df n) (hbys : ∀ c ∈ bys, c ∈ df.order) :
    groupByE df bys 0 = .ok (buildGroups df bys df.Len) := by
  rw [groupByE, if_neg (by simp)]
  have hfind : (bys.find? (fun c => (df.col c).isNone)).isSome = false := by
    cases hf : bys.find? (fun c => (df.col c).isNone) with
    | none => rfl
    | some c =>
      have hc := List.find?_some hf
      have hmem := List.mem_of_find?_eq_some hf
      obtain ⟨s, hs, _⟩ := hwf c (hbys c hmem)
      rw [hs] at hc
      cases hc
  rw [if_neg (by rw [hfind]; simp)]
  rw [foldlM_groups_ok df bys (List.range df.Len)
    (fun i hi => rowKeyE_ok df bys i
      (fun c hc => len_le_col_length df n hwf c (hbys c hc) i (List.mem_range.mp hi)))]
  rfl

/-- C10.  GroupBy identifies a group by joining the `%v` renderings of
the by-column cells with the separator character: two rows land in the
same group exactly when their joined renderings coincide, so distinct
value tuples whose joined renderings agree collapse into one group (the
witness collapses ("a_b", "c") with ("a", "b_c")). -/
theorem groupKey_collapse (df : EDF) (bys : List String) (n : Nat)
    (hwf : WellFormed df n) (hbys : ∀ c ∈ bys, c ∈ df.order)
    (gs : List (String × List Nat)) (hgs : groupByE df bys 0 = .ok gs)
    (i j : Nat) (hi : i < df.Len) (hj : j < df.Len) :
    sameGroup gs i j ↔ rowKey df bys i = rowKey df bys j := by
  have hb : gs = buildGroups df bys df.Len := by
    have h2 := groupByE_eq_buildGroups df bys n hwf hbys
    rw [hgs] at h2
    exact Except.ok.inj h2
  subst hb
  have hnodup : ((buildGroups df bys df.Len).map Prod.fst).Nodup :=
    groupsFold_keys_nodup (rowKey df bys) (List.range df.Len) [] List.nodup_nil
  constructor
  · rintro ⟨p, hp, hip, hjp⟩
    have hlk : (buildGroups df bys df.Len).lookup p.1 = some p.2 :=
      lookup_of_mem_nodup _ hnodup p hp
    rw [buildGroups, lookup_groupsFold] at hlk
    simp only [List.lookup] at hlk
    split at hlk
    · cases hlk
    · have hp2 : p.2 = (List.range df.Len).filter
          (fun i2 => rowKey df bys i2 = p.1) := (Option.some.inj hlk).symm
      rw [hp2] at hip hjp
      have h1 := (List.mem_filter.mp hip).2
      have h2 := (List.mem_filter.mp hjp).2
      simp only [decide_eq_true_eq] at h1 h2
      rw [h1, h2]
  · intro heq
    refine ⟨(rowKey df bys i,
      (List.range df.Len).filter (fun i2 => rowKey df bys i2 = rowKey df bys i)),
      ?_, ?_, ?_⟩
    · apply lookup_some_mem
      rw [buildGroups, lookup_groupsFold]
      simp only [List.lookup]
      rw [if_neg]
      intro hemp
      have : i ∈ (List.range df.Len).filter
          (fun i2 => rowKey df bys i2 = rowKey df bys i) :=
        List.mem_filter.mpr ⟨List.mem_range.mpr hi, by simp⟩
      rw [hemp] at this
      cases this
    · exact List.mem_filter.mpr ⟨List.mem_range.mpr hi, by simp⟩
    · exact List.mem_filter.mpr ⟨List.mem_range.mpr hj, by simp [heq]⟩

theorem groupKey_collapse_witness :
    rowKey wdfD ["c1", "c2"] 0 = rowKey wdfD ["c1", "c2"] 1 ∧
    sameGroup [("a_b_c", [0, 1])] 0 1 :=
  ⟨rfl,
    (groupKey_collapse wdfD ["c1", "c2"] 2
      (by intro c hc; fin_cases hc <;> exact ⟨_, rfl, rfl⟩)
      (by decide) [("a_b_c", [0, 1])] rfl 0 1 (by decide) (by decide)).mpr rfl⟩

/-! ## Aggregation theorems -/

theorem lookup_map_pair_self {β : Type} (l : List String) (val : String → β)
    (c : String) (hc : c ∈ l) :
    (l.map (fun a => (a, val a))).lookup c = some (val c) := by
  induction l with
  | nil => cases hc
  | cons a t ih =>
    by_cases hac : c = a
    · subst hac
      simp [List.lookup]
    · have hb : (c == a) = false := by simp [hac]
      simp only [List.map_cons, List.lookup, hb]
      exact ih (List.mem_cons.mp hc |>.resolve_left hac)

theorem lookup_map_pair_none {β : Type} (l : List String) (val : String → β)
    (c : String) (hc : c ∉ l) :
    (l.map (fun a => (a, val a))).lookup c = none := by
  rw [lookup_none_iff_not_mem_keys, List.map_map]
  simpa using hc

/-- The output column of `aggregate` for a non-grouping column `c` is the
cell function mapped over the sorted group keys. -/
theorem aggregateOut_col (df : EDF) (bys : List String)
    (gs : List (String × List Nat)) (f : Col → Except String (Option ℚ))
    (c : String) (hc : c ∈ df.order) (hcb : bys.contains c = false) :
    (aggregateOut df bys gs f).col c =
      some ((getSortedKeys gs).map (fun k => aggCell df gs c k f)) := by
  have hcnot : c ∉ bys := by
    intro hmem
    simp [hmem] at hcb
  rw [aggregateOut]
  rw [EDF.col]
  dsimp only
  rw [lookup_append_col, lookup_map_pair_none _ _ c hcnot]
  exact lookup_map_pair_self _ _ c
    (List.mem_filter.mpr ⟨hc, by simpa using hcnot⟩)

theorem mem_keys_buildGroups (df : EDF) (bys : List String) (n : Nat)
    (k : String) :
    k ∈ (buildGroups df bys n).map Prod.fst ↔
      k ∈ (List.range n).map (rowKey df bys) := by
  rw [← not_iff_not, ← lookup_none_iff_not_mem_keys, buildGroups,
    lookup_groupsFold]
  simp only [List.lookup]
  constructor
  · intro h hmem
    split at h
    · rename_i hemp
      obtain ⟨i, hi, hik⟩ := List.mem_map.mp hmem
      have : i ∈ (List.range n).filter (fun i2 => rowKey df bys i2 = k) :=
        List.mem_filter.mpr ⟨hi, by simp [hik]⟩
      rw [hemp] at this
      cases this
    · cases h
  · intro h
    rw [if_pos]
    rw [List.eq_nil_iff_forall_not_mem]
    intro i hi
    have h1 := (List.mem_filter.mp hi).1
    have h2 := (List.mem_filter.mp hi).2
    simp only [decide_eq_true_eq] at h2
    exact h (h2 ▸ List.mem_map_of_mem (rowKey df bys) h1)

/-- C4.  The aggregation output is deterministic: the group keys are
iterated in lexicographically sorted order, two frames whose rows yield
the same multiset of composite keys (e.g. the same rows in any order,
under any map iteration order) produce the same sorted key sequence, and
every aggregated output column is exactly the per-group cell function
mapped over that sorted key sequence, so output rows follow it. -/
theorem aggregate_sorted_deterministic (df df2 : EDF) (bys : List String)
    (n n2 : Nat) (hwf : WellFormed df n) (hbys : ∀ c ∈ bys, c ∈ df.order)
    (hwf2 : WellFormed df2 n2) (hbys2 : ∀ c ∈ bys, c ∈ df2.order)
    (gs gs2 : List (String × List Nat))
    (hgs : groupByE df bys 0 = .ok gs) (hgs2 : groupByE df2 bys 0 = .ok gs2)
    (hperm : List.Perm ((List.range df.Len).map (rowKey df bys))
      ((List.range df2.Len).map (rowKey df2 bys))) :
    (getSortedKeys gs).Sorted (fun a b => a ≤ b) ∧
    getSortedKeys gs = getSortedKeys gs2 ∧
    (∀ f c, c ∈ df.order → bys.contains c = false →
      (aggregateOut df bys gs f).col c =
        some ((getSortedKeys gs).map (fun k => aggCell df gs c k f))) := by
  have hb : gs = buildGroups df bys df.Len := by
    have h2 := groupByE_eq_buildGroups df bys n hwf hbys
    rw [hgs] at h2
    exact Except.ok.inj h2
  have hb2 : gs2 = buildGroups df2 bys df2.Len := by
    have h2 := groupByE_eq_buildGroups df2 bys n2 hwf2 hbys2
    rw [hgs2] at h2
    exact Except.ok.inj h2
  have hnd : (gs.map Prod.fst).Nodup := by
    rw [hb]
    exact groupsFold_keys_nodup (rowKey df bys) (List.range df.Len) [] List.nodup_nil
  have hnd2 : (gs2.map Prod.fst).Nodup := by
    rw [hb2]
    exact groupsFold_keys_nodup (rowKey df2 bys) (List.range df2.Len) [] List.nodup_nil
  have hmemiff : ∀ k, k ∈ gs.map Prod.fst ↔ k ∈ gs2.map Prod.fst := by
    intro k
    rw [hb, hb2, mem_keys_buildGroups, mem_keys_buildGroups]
    exact ⟨fun h => hperm.mem_iff.mp h, fun h => hperm.mem_iff.mpr h⟩
  have hkperm : List.Perm (gs.map Prod.fst) (gs2.map Prod.fst) :=
    (List.perm_ext_iff_of_nodup hnd hnd2).mpr hmemiff
  have hs1 : (getSortedKeys gs).Sorted (fun a b => a ≤ b) :=
    List.sorted_insertionSort _ (gs.map Prod.fst)
  have hs2 : (getSortedKeys gs2).Sorted (fun a b => a ≤ b) :=
    List.sorted_insertionSort _ (gs2.map Prod.fst)
  refine ⟨hs1, ?_, ?_⟩
  · exact List.eq_of_perm_of_sorted
      ((List.perm_insertionSort _ (gs.map Prod.fst)).trans
        (hkperm.trans (List.perm_insertionSort _ (gs2.map Prod.fst)).symm))
      hs1 hs2
  · intro f c hc hcb
    exact aggregateOut_col df bys gs f c hc hcb

theorem aggregate_sorted_deterministic_witness :
    WellFormed wdfC 3 ∧
    getSortedKeys [("x", [0, 1]), ("y", [2])] =
      getSortedKeys [("y", [0]), ("x", [1, 2])] :=
  ⟨by intro c hc; fin_cases hc <;> exact ⟨_, rfl, rfl⟩,
    (aggregate_sorted_deterministic wdfC wdfC2 ["cat"] 3 3
      (by intro c hc; fin_cases hc <;> exact ⟨_, rfl, rfl⟩) (by decide)
      (by intro c hc; fin_cases hc <;> exact ⟨_, rfl, rfl⟩) (by decide)
      [("x", [0, 1]), ("y", [2])] [("y", [0]), ("x", [1, 2])]
      rfl rfl (by decide)).2.1⟩

theorem collectNums_foldl_error (s : Col) (e : String) :
    s.foldl collectStep (.error e) = .error e := by
  induction s with
  | nil => rfl
  | cons x t ih => exact ih

theorem collectNums_all_none (s : Col) (h : ∀ x ∈ s, x = none) :
    collectNums s = .ok [] := by
  induction s with
  | nil => rfl
  | cons x t ih =>
    have hx := h x (List.mem_cons_self x t)
    subst hx
    exact ih (fun y hy => h y (List.mem_cons_of_mem none hy))

theorem collectNums_error (s : Col)
    (h : ∃ v, some v ∈ s ∧ toNum v = none) :
    collectNums s = .error "non-numeric type" := by
  obtain ⟨v, hvmem, hvn⟩ := h
  have key : ∀ (s2 : Col), some v ∈ s2 → ∀ (qs : List ℚ),
      s2.foldl collectStep (.ok qs) = .error "non-numeric type" := by
    intro s2
    induction s2 with
    | nil => intro hmem; cases hmem
    | cons x t ih =>
      intro hmem qs
      rw [List.foldl_cons]
      rcases List.mem_cons.mp hmem with heq | htail
      · rw [← heq]
        have hstep : collectStep (.ok qs) (some v) = .error "non-numeric type" := by
          rw [collectStep]
          dsimp only [Except.bind]
          rw [hvn]
        rw [hstep]
        exact collectNums_foldl_error t "non-numeric type"
      · cases x with
        | none => exact ih htail qs
        | some w =>
          cases hw : toNum w with
          | none =>
            have hstep : collectStep (.ok qs) (some w) = .error "non-numeric type" := by
              rw [collectStep]
              dsimp only [Except.bind]
              rw [hw]
            rw [hstep]
            exact collectNums_foldl_error t "non-numeric type"
          | some q =>
            have hstep : collectStep (.ok qs) (some w) = .ok (qs ++ [q]) := by
              rw [collectStep]
              dsimp only [Except.bind]
              rw [hw]
            rw [hstep]
            exact ih htail (qs ++ [q])
  exact key s hvmem []

/-- C3.  Per-group aggregation semantics: for a group whose entries are
all null (or empty), `Sum` yields the value 0 while `Mean`, `Min` and
`Max` yield an explicit null; for a group containing any value that does
not coerce to a number, every reduction yields a null cell; in both
cases the aggregation call as a whole returns without error, and the
cells are the entries of the actual output column at the group's sorted
position. -/
theorem aggregation_null_semantics (df : EDF) (bys : List String) (n : Nat)
    (hwf : WellFormed df n) (hbys : ∀ c ∈ bys, c ∈ df.order)
    (gs : List (String × List Nat)) (hgs : groupByE df bys 0 = .ok gs)
    (k : String) (l : List Nat) (hmem : (k, l) ∈ gs)
    (c : String) (hc : c ∈ df.order) (hcb : bys.contains c = false) :
    ((∀ x ∈ extractGroup df c l, x = none) →
      aggCell df gs c k aggSum = some (.vFloat 0) ∧
      aggCell df gs c k aggMean = none ∧
      aggCell df gs c k aggMin = none ∧
      aggCell df gs c k aggMax = none) ∧
    ((∃ v, some v ∈ extractGroup df c l ∧ toNum v = none) →
      aggCell df gs c k aggSum = none ∧
      aggCell df gs c k aggMean = none ∧
      aggCell df gs c k aggMin = none ∧
      aggCell df gs c k aggMax = none) ∧
    (∀ f, aggregateRun df bys gs f = .ok (aggregateOut df bys gs f)) ∧
    (∀ f, (aggregateOut df bys gs f).col c =
      some ((getSortedKeys gs).map (fun k2 => aggCell df gs c k2 f))) := by
  have hb : gs = buildGroups df bys df.Len := by
    have h2 := groupByE_eq_buildGroups df bys n hwf hbys
    rw [hgs] at h2
    exact Except.ok.inj h2
  have hnd : (gs.map Prod.fst).Nodup := by
    rw [hb]
    exact groupsFold_keys_nodup (rowKey df bys) (List.range df.Len) [] List.nodup_nil
  have hlk : gs.lookup k = some l := lookup_of_mem_nodup gs hnd (k, l) hmem
  have hextract : extractGroup df c ((gs.lookup k).getD []) = extractGroup df c l := by
    rw [hlk]
    rfl
  refine ⟨?_, ?_, fun f => rfl, fun f => aggregateOut_col df bys gs f c hc hcb⟩
  · intro hnull
    have hcn : collectNums (extractGroup df c ((gs.lookup k).getD [])) = .ok [] := by
      rw [hextract]
      exact collectNums_all_none _ hnull
    refine ⟨?_, ?_, ?_, ?_⟩ <;>
      simp [aggCell, aggSum, aggMean, aggMin, aggMax, hcn, Except.map]
  · intro hbad
    have hcn : collectNums (extractGroup df c ((gs.lookup k).getD [])) =
        .error "non-numeric type" := by
      rw [hextract]
      exact collectNums_error _ hbad
    refine ⟨?_, ?_, ?_, ?_⟩ <;>
      simp [aggCell, aggSum, aggMean, aggMin, aggMax, hcn, Except.map]

theorem aggregation_null_semantics_witness :
    ((("x", [0]) : String × List Nat) ∈ [(("x" : String), ([0] : List Nat))]) ∧
    aggCell wdfE [("x", [0])] "s" "x" aggSum = none ∧
    aggCell wdfE [("x", [0])] "e" "x" aggSum = some (.vFloat 0) ∧
    aggCell wdfE [("x", [0])] "e" "x" aggMean = none :=
  ⟨List.mem_cons_self _ _,
    ((aggregation_null_semantics wdfE ["g"] 1
      (by intro c hc; fin_cases hc <;> exact ⟨_, rfl, rfl⟩) (by decide)
      [("x", [0])] rfl "x" [0] (List.mem_cons_self _ _)
      "s" (by decide) (by decide)).2.1
      ⟨.vStr "abc", by decide, rfl⟩).1,
    ((aggregation_null_semantics wdfE ["g"] 1
      (by intro c hc; fin_cases hc <;> exact ⟨_, rfl, rfl⟩) (by decide)
      [("x", [0])] rfl "x" [0] (List.mem_cons_self _ _)
      "e" (by decide) (by decide)).1 (by decide)).1,
    ((aggregation_null_semantics wdfE ["g"] 1
      (by intro c hc; fin_cases hc <;> exact ⟨_, rfl, rfl⟩) (by decide)
      [("x", [0])] rfl "x" [0] (List.mem_cons_self _ _)
      "e" (by decide) (by decide)).1 (by decide)).2.1⟩

/-! ## Melt theorems -/

theorem length_flatMap_fixed {γ β : Type} (l : List γ) (g : γ → List β)
    (m : Nat) (h : ∀ x ∈ l, (g x).length = m) :
    (l.flatMap g).length = l.length * m := by
  rw [List.length_flatMap]
  have h2 : l.map (List.length ∘ g) = l.map (fun _ => m) :=
    List.map_congr_left (fun a ha => h a ha)
  rw [h2, List.map_const']
  simp [Nat.mul_comm]

theorem flatMap_fixed_getD {γ β : Type} (l : List γ) (g : γ → List β)
    (m : Nat) (h : ∀ x ∈ l, (g x).length = m) (p k : Nat)
    (hp : p < l.length) (hk : k < m) (d : β) (dg : γ) :
    (l.flatMap g).getD (p * m + k) d = (g (l.getD p dg)).getD k d := by
  induction l generalizing p with
  | nil => cases hp
  | cons x t ih =>
    rw [List.flatMap_cons]
    cases p with
    | zero =>
      have hkx : k < (g x).length := by
        rw [h x (List.mem_cons_self x t)]
        exact hk
      rw [Nat.zero_mul, Nat.zero_add, List.getD_eq_getElem?_getD,
        List.getElem?_append_left hkx, ← List.getD_eq_getElem?_getD]
      rfl
    | succ p2 =>
      have hge : (g x).length ≤ (p2 + 1) * m + k := by
        rw [h x (List.mem_cons_self x t)]
        calc m ≤ (p2 + 1) * m := Nat.le_mul_of_pos_left m (Nat.succ_pos p2)
          _ ≤ (p2 + 1) * m + k := Nat.le_add_right _ _
      rw [List.getD_eq_getElem?_getD, List.getElem?_append_right hge,
        ← List.getD_eq_getElem?_getD]
      have hidx : (p2 + 1) * m + k - (g x).length = p2 * m + k := by
        rw [h x (List.mem_cons_self x t), Nat.succ_mul]
        omega
      rw [hidx]
      have := ih (fun y hy => h y (List.mem_cons_of_mem x hy)) p2
        (Nat.lt_of_succ_lt_succ hp)
      rw [this]
      rfl

theorem getD_map_lt {γ β : Type} (l : List γ) (f : γ → β) (k : Nat)
    (hk : k < l.length) (d : β) (dg : γ) :
    (l.map f).getD k d = f (l.getD k dg) := by
  rw [List.getD_eq_getElem?_getD, List.getElem?_map,
    List.getD_eq_getElem?_getD, List.getElem?_eq_getElem hk]
  simp

theorem getD_replicate_lt {β : Type} (m k : Nat) (a d : β) (hk : k < m) :
    (List.replicate m a).getD k d = a := by
  rw [List.getD_eq_getElem?_getD, List.getElem?_replicate]
  simp [hk]

theorem getD_range_lt (n p : Nat) (hp : p < n) (d : Nat) :
    (List.range n).getD p d = p := by
  rw [List.getD_eq_getElem?_getD, List.getElem?_range hp]
  rfl

/-- C9.  `Melt` with omitted value variables defaults them to every
column not among the id variables; the output columns are the id
variables, then the variable-name column, then the value column; every
output column has `Len(df) * len(valueVars)` entries — one per
(source row, value variable) pair in row-major order — and the entry at
position `i * len(valueVars) + k` carries the id values of source row
`i` (nulls propagated), the literal name of value variable `k`, and that
cell's value (null propagated). -/
theorem melt_default_shape (df : EDF) (n : Nat) (idVars : List String)
    (vn vln : String)
    (hwf : WellFormed df n) (hids : ∀ c ∈ idVars, c ∈ df.order)
    (hvv : meltDefaultVars df idVars ≠ [])
    (hvn : ¬ vn = "") (hvln : ¬ vln = "")
    (hvnid : vn ∉ idVars) (hvlnid : vln ∉ idVars) (hnv : vln ≠ vn) :
    ∃ cols, melt df idVars [] vn vln = .ok (idVars ++ [vn, vln], cols) ∧
      (∀ c cl, (c, cl) ∈ cols →
        cl.length = df.Len * (meltDefaultVars df idVars).length) ∧
      (∀ i k, i < df.Len → k < (meltDefaultVars df idVars).length →
        ((cols.lookup vln).getD []).getD
            (i * (meltDefaultVars df idVars).length + k) none =
          (df.colD ((meltDefaultVars df idVars).getD k "")).getD i none ∧
        ((cols.lookup vn).getD []).getD
            (i * (meltDefaultVars df idVars).length + k) none =
          some (.vStr ((meltDefaultVars df idVars).getD k "")) ∧
        (∀ c ∈ idVars, ((cols.lookup c).getD []).getD
            (i * (meltDefaultVars df idVars).length + k) none =
          (df.colD c).getD i none)) := by
  have hidfind : (idVars.find? (fun c => (df.col c).isNone)).isSome = false := by
    cases hf : idVars.find? (fun c => (df.col c).isNone) with
    | none => rfl
    | some c =>
      have hcp := List.find?_some hf
      have hcm := List.mem_of_find?_eq_some hf
      obtain ⟨s, hs, _⟩ := hwf c (hids c hcm)
      rw [hs] at hcp
      cases hcp
  rw [melt]
  rw [if_neg hvn, if_neg hvln, if_neg (by rw [hidfind]; simp), if_pos rfl]
  dsimp only
  rw [if_neg hvv]
  set vv := meltDefaultVars df idVars with hvvdef
  refine ⟨_, rfl, ?_, ?_⟩
  · intro c cl hmem
    rcases List.mem_append.mp hmem with hid | htail
    · obtain ⟨c2, hc2, heq⟩ := List.mem_map.mp hid
      injection heq with he1 he2
      subst he2
      simpa using length_flatMap_fixed (List.range df.Len)
        (fun i2 => List.replicate vv.length ((df.colD c2).getD i2 none)) vv.length
        (fun x _ => List.length_replicate _ _)
    · rcases List.mem_cons.mp htail with h1 | h2
      · cases h1
        simpa using length_flatMap_fixed (List.range df.Len)
          (fun _ => vv.map (fun c2 => some (GoVal.vStr c2))) vv.length
          (fun x _ => List.length_map _ _)
      · rcases List.mem_cons.mp h2 with h3 | h4
        · cases h3
          simpa using length_flatMap_fixed (List.range df.Len)
            (fun i2 => vv.map (fun c2 => (df.colD c2).getD i2 none)) vv.length
            (fun x _ => List.length_map _ _)
        · exact absurd h4 (List.not_mem_nil _)
  · intro i k hi hk
    have hlookid : ∀ c, c ∉ idVars →
        ((idVars.map (fun c2 => (c2, (List.range df.Len).flatMap
          (fun i2 => List.replicate vv.length ((df.colD c2).getD i2 none))))).lookup c)
          = none := fun c hc => lookup_map_pair_none _ _ c hc
    have hrange : (List.range df.Len).getD i 0 = i := getD_range_lt df.Len i hi 0
    refine ⟨?_, ?_, ?_⟩
    · rw [lookup_append_col, hlookid vln hvlnid]
      have hb1 : (vln == vn) = false := by simp [hnv]
      simp only [List.lookup, hb1, beq_self_eq_true, Option.getD_some]
      rw [flatMap_fixed_getD (List.range df.Len)
        (fun i2 => vv.map (fun c2 => (df.colD c2).getD i2 none)) vv.length
        (fun x _ => List.length_map _ _) i k (by simpa using hi) hk none 0]
      rw [hrange, getD_map_lt vv _ k hk none ""]
    · rw [lookup_append_col, hlookid vn hvnid]
      simp only [List.lookup, beq_self_eq_true, Option.getD_some]
      rw [flatMap_fixed_getD (List.range df.Len)
        (fun _ => vv.map (fun c2 => some (GoVal.vStr c2))) vv.length
        (fun x _ => List.length_map _ _) i k (by simpa using hi) hk none 0]
      rw [getD_map_lt vv _ k hk none ""]
    · intro c hc
      rw [lookup_append_col,
        lookup_map_pair_self idVars
          (fun c2 => (List.range df.Len).flatMap
            (fun i2 => List.replicate vv.length ((df.colD c2).getD i2 none)))
          c hc]
      simp only [Option.getD_some]
      rw [flatMap_fixed_getD (List.range df.Len)
        (fun i2 => List.replicate vv.length ((df.colD c).getD i2 none)) vv.length
        (fun x _ => List.length_replicate _ _) i k (by simpa using hi) hk none 0]
      rw [hrange, getD_replicate_lt vv.length k _ none hk]

theorem melt_default_shape_witness :
    WellFormed wdfM 2 ∧
    (∃ cols, melt wdfM ["Name"] [] "variable" "value" =
        .ok (["Name"] ++ ["variable", "value"], cols) ∧
      (∀ c cl, (c, cl) ∈ cols →
        cl.length = wdfM.Len * (meltDefaultVars wdfM ["Name"]).length) ∧
      (∀ i k, i < wdfM.Len → k < (meltDefaultVars wdfM ["Name"]).length →
        ((cols.lookup "value").getD []).getD
            (i * (meltDefaultVars wdfM ["Name"]).length + k) none =
          (wdfM.colD ((meltDefaultVars wdfM ["Name"]).getD k "")).getD i none ∧
        ((cols.lookup "variable").getD []).getD
            (i * (meltDefaultVars wdfM ["Name"]).length + k) none =
          some (.vStr ((meltDefaultVars wdfM ["Name"]).getD k "")) ∧
        (∀ c ∈ ["Name"], ((cols.lookup c).getD []).getD
            (i * (meltDefaultVars wdfM ["Name"]).length + k) none =
          (wdfM.colD c).getD i none))) :=
  ⟨by intro c hc; fin_cases hc <;> exact ⟨_, rfl, rfl⟩,
    melt_default_shape wdfM 2 ["Name"] "variable" "value"
      (by intro c hc; fin_cases hc <;> exact ⟨_, rfl, rfl⟩)
      (by decide) (by decide) (by decide) (by decide)
      (by decide) (by decide) (by decide)⟩

end GPandas
